/-
Verification of the cli_proxy request-forwarding engine.

This file gives a shallow embedding, in Lean 4, of the parts of the
cli_proxy source that the specification's claims are about:

* `src/config/cached_config_manager.py` (channel-catalog loading),
* `src/core/base_proxy.py` (weighted channel selection, load-balance
  bookkeeping, response-header construction, per-request LB recording,
  traffic-log cap maintenance and usage spill),
* `src/core/realtime_hub.py` (live request records and event broadcast),
* `src/utils/usage_parser.py` (usage extraction from SSE / JSON bodies),
* `src/filter/cached_request_filter.py` (request-body filter pipeline).

Modelling conventions:

* Python dicts are modelled as association lists `List (String × α)`
  with first-match lookup (`dictGet`) and in-place-or-append update
  (`dictSet`), matching CPython's insertion-ordered dicts.
* JSON values are modelled by the inductive `Json`; JSON numbers are
  modelled as `Int` (the token counters and configuration values the
  claims concern are integers).
* Byte strings that the source immediately decodes as UTF-8 text are
  modelled as `String`; `bytes.decode("utf-8", errors="ignore")` on the
  well-formed text the claims concern is the identity.
* `json.loads` (Python standard library) is not part of this repository;
  functions that call it take an explicit `jsonLoads : String → Option Json`
  argument.
-/
import Mathlib

namespace CliProxy

/-! ## Association-list dictionaries (model of Python `dict`) -/

/-- First-match lookup, the model of `d[k]` / `d.get(k)`. -/
def dictGet {α : Type} (k : String) : List (String × α) → Option α
  | [] => none
  | (k', v) :: rest => if k' = k then some v else dictGet k rest

/-- Lookup with default, the model of `d.get(k, dflt)`. -/
def dictGetD {α : Type} (k : String) (d : List (String × α)) (dflt : α) : α :=
  (dictGet k d).getD dflt

/-- Update-or-append, the model of `d[k] = v` on an insertion-ordered dict. -/
def dictSet {α : Type} (k : String) (v : α) : List (String × α) → List (String × α)
  | [] => [(k, v)]
  | (k', v') :: rest => if k' = k then (k', v) :: rest else (k', v') :: dictSet k v rest

/-! ## JSON values -/

/-- Model of a decoded JSON value.  Numbers are modelled as `Int`. -/
inductive Json where
  | null : Json
  | bool (b : Bool) : Json
  | num (n : Int) : Json
  | str (s : String) : Json
  | arr (xs : List Json) : Json
  | obj (fields : List (String × Json)) : Json

/-- Python truthiness of a JSON value (`None`, `False`, `0`, `""`, `[]`,
and the empty dict are falsy). -/
def pyTruthy : Json → Bool
  | .null => false
  | .bool b => b
  | .num n => n != 0
  | .str s => s != ""
  | .arr xs => !xs.isEmpty
  | .obj fields => !fields.isEmpty

/-- Model of `s or dflt` for an optional string: `None` and `""` are falsy. -/
def strOr (s : Option String) (dflt : String) : String :=
  match s with
  | some v => if v = "" then dflt else v
  | none => dflt

/-! ### Python string primitives

Python `str` values are sequences of code points; the primitives below
model `str.strip`, `str.split(sep)`, `str.startswith`, slicing and
comparison directly on the character list of a Lean `String`. -/

/-- The whitespace characters `str.strip()` removes. -/
def isPySpace (c : Char) : Bool :=
  c = ' ' ∨ c = '\t' ∨ c = '\n' ∨ c = '\r' ∨ c = '\x0b' ∨ c = '\x0c'

/-- Model of `str.strip()` on a character list. -/
def pyStripChars (l : List Char) : List Char :=
  ((l.dropWhile isPySpace).reverse.dropWhile isPySpace).reverse

/-- Model of `str.strip()`. -/
def pyTrim (s : String) : String :=
  String.mk (pyStripChars s.data)

/-- Fuel-indexed worker for `str.split(sep)`; the fuel bounds the input
length, so `pySplitOn` below always supplies enough. -/
def splitFuel (sep : List Char) : Nat → List Char → List (List Char)
  | 0, l => [l]
  | _ + 1, [] => [[]]
  | fuel + 1, c :: rest =>
    if sep ≠ [] ∧ sep.isPrefixOf (c :: rest) then
      [] :: splitFuel sep fuel ((c :: rest).drop sep.length)
    else
      match splitFuel sep fuel rest with
      | [] => [[c]]
      | p :: ps => (c :: p) :: ps

/-- Model of `s.split(sep)` for a non-empty separator: non-overlapping
leftmost splitting. -/
def pySplit (s sep : String) : List String :=
  (splitFuel sep.data s.data.length s.data).map String.mk

/-- Model of `s.startswith(p)`. -/
def pyStartsWith (s p : String) : Bool :=
  p.data.isPrefixOf s.data

/-- Model of the slice `s[n:]` (by code points). -/
def pyDrop (s : String) (n : Nat) : String :=
  String.mk (s.data.drop n)

/-- Lexicographic code-point comparison of character lists (`≤`). -/
def charsLE : List Char → List Char → Bool
  | [], _ => true
  | _ :: _, [] => false
  | c :: cs, d :: ds =>
    if c.toNat < d.toNat then true
    else if d.toNat < c.toNat then false
    else charsLE cs ds

/-- Model of Python string comparison `a <= b` (code-point lexicographic). -/
def pyStrLE (a b : String) : Bool :=
  charsLE a.data b.data

/-- Integer value of a decimal digit list; `none` when empty or non-digit. -/
def digitsVal : List Char → Option Nat
  | [] => none
  | cs =>
    if cs.all Char.isDigit then
      some (cs.foldl (fun acc c => acc * 10 + (c.toNat - '0'.toNat)) 0)
    else none

/-- Model of `int(float(s))` for plain decimal strings: optional sign,
digits, optional fractional part (truncated toward zero).  Strings Python
would fail to parse yield 0, matching `_to_int`'s exception handler.
Exponent notation is outside the inputs the claims concern and yields 0. -/
def pyStrToInt (s : String) : Int :=
  let t := pyStripChars s.data
  let (sign, rest) : Int × List Char :=
    match t with
    | '-' :: cs => (-1, cs)
    | '+' :: cs => (1, cs)
    | cs => (1, cs)
  let intPart := rest.takeWhile (fun c => c ≠ '.')
  match rest.dropWhile (fun c => c ≠ '.') with
  | [] =>
    -- no '.': the whole rest must be a nonempty digit run
    match digitsVal intPart with
    | some n => sign * n
    | none => 0
  | _ :: frac =>
    -- a '.': both sides must be digit runs, not both empty
    if intPart.all Char.isDigit ∧ frac.all Char.isDigit ∧ (intPart ≠ [] ∨ frac ≠ []) then
      sign * ((digitsVal intPart).getD 0)
    else 0

/-- Model of `usage_parser._to_int` applied to the result of `d.get(k)`:
`None → 0`, bools map to 0/1, numbers pass through, strings go through
`int(float(s))`, and lists/dicts (a `TypeError` in Python) yield 0. -/
def pyToInt : Option Json → Int
  | none => 0
  | some .null => 0
  | some (.bool b) => if b then 1 else 0
  | some (.num n) => n
  | some (.str s) => pyStrToInt s
  | some (.arr _) => 0
  | some (.obj _) => 0

/-! ## Usage metrics (`usage_parser.empty_metrics` and friends) -/

/-- The fixed six-key metrics record produced by `empty_metrics()`. -/
structure Metrics where
  input : Int
  cached_create : Int
  cached_read : Int
  output : Int
  reasoning : Int
  total : Int
  deriving DecidableEq, Repr

/-- Model of `empty_metrics()`. -/
def emptyMetrics : Metrics := ⟨0, 0, 0, 0, 0, 0⟩

/-- Pointwise addition of two six-key metric records; this is
`merge_usage_metrics` when the source values are plain integers
(`_to_int` is the identity on `int`). -/
def addMetrics (a b : Metrics) : Metrics :=
  ⟨a.input + b.input, a.cached_create + b.cached_create, a.cached_read + b.cached_read,
   a.output + b.output, a.reasoning + b.reasoning, a.total + b.total⟩

/-- Model of `merge_usage_metrics(target, source)` where `source` is a
decoded JSON object: each of the six keys is read with `_to_int`. -/
def mergeJsonMetrics (t : Metrics) (src : List (String × Json)) : Metrics :=
  ⟨t.input + pyToInt (dictGet "input" src),
   t.cached_create + pyToInt (dictGet "cached_create" src),
   t.cached_read + pyToInt (dictGet "cached_read" src),
   t.output + pyToInt (dictGet "output" src),
   t.reasoning + pyToInt (dictGet "reasoning" src),
   t.total + pyToInt (dictGet "total" src)⟩

/-- The six-key metrics object read back out of a JSON metrics dict
(`merge_usage_metrics(empty_metrics(), src)`). -/
def jsonMetrics (src : List (String × Json)) : Metrics :=
  mergeJsonMetrics emptyMetrics src

/-- Serialisation of a metrics record back to a JSON object, in the key
order of `METRIC_KEYS` (the insertion order `empty_metrics()` creates). -/
def metricsToJson (m : Metrics) : List (String × Json) :=
  [("input", .num m.input), ("cached_create", .num m.cached_create),
   ("cached_read", .num m.cached_read), ("output", .num m.output),
   ("reasoning", .num m.reasoning), ("total", .num m.total)]

/-! ## Usage extraction (`src/utils/usage_parser.py`) -/

/-- The normalised usage record returned by `normalize_usage`. -/
structure UsageRecord where
  service : String
  metrics : Metrics
  raw : List (String × Json)

/-- Model of `normalize_usage(service, raw_usage)`.  A present
`total_tokens` key with JSON `null` value behaves like Python `None`
(falls back to `input + output`). -/
def normalize_usage (service : String) (rawUsage : Option (List (String × Json))) :
    UsageRecord :=
  let raw := match rawUsage with
    | some r => r
    | none => []
  if service = "claude" then
    let input := pyToInt (dictGet "input_tokens" raw)
    let cachedCreate := pyToInt (dictGet "cache_creation_input_tokens" raw)
    let cachedRead := pyToInt (dictGet "cache_read_input_tokens" raw)
    let output := pyToInt (dictGet "output_tokens" raw)
    let reasoning := pyToInt (dictGet "reasoning_tokens" raw)
    let total := match dictGet "total_tokens" raw with
      | some .null => input + output
      | some j => pyToInt (some j)
      | none => input + output
    { service := service,
      metrics := ⟨input, cachedCreate, cachedRead, output, reasoning, total⟩,
      raw := raw }
  else
    let input := pyToInt (dictGet "input_tokens" raw)
    let cachedRead := match dictGet "input_tokens_details" raw with
      | some (.obj details) => pyToInt (dictGet "cached_tokens" details)
      | _ => 0
    let cachedCreate := pyToInt (dictGet "cache_creation_input_tokens" raw)
    let output := pyToInt (dictGet "output_tokens" raw)
    let reasoning := match dictGet "output_tokens_details" raw with
      | some (.obj details) => pyToInt (dictGet "reasoning_tokens" details)
      | _ => 0
    let total := match dictGet "total_tokens" raw with
      | some .null => input + output
      | some j => pyToInt (some j)
      | none => input + output
    { service := service,
      metrics := ⟨input, cachedCreate, cachedRead, output, reasoning, total⟩,
      raw := raw }

/-- Model of `_safe_json_loads`: JSON-decode, keep only objects. -/
def safe_json_loads (jsonLoads : String → Option Json) (payload : String) :
    Option (List (String × Json)) :=
  match jsonLoads payload with
  | some (.obj fields) => some fields
  | _ => none

/-- Model of `_extract_usage_from_payload`. -/
def extract_usage_from_payload (service : String) (payload : List (String × Json)) :
    Option (List (String × Json)) :=
  if service = "claude" then
    match dictGet "usage" payload with
    | some (.obj u) => some u
    | _ =>
      match dictGet "message" payload with
      | some (.obj message) =>
        match dictGet "usage" message with
        | some (.obj u) => some u
        | _ => none
      | _ => none
  else
    match dictGet "usage" payload with
    | some (.obj u) => some u
    | _ =>
      match dictGet "response" payload with
      | some (.obj response) =>
        match dictGet "usage" response with
        | some (.obj u) => some u
        | _ => none
      | _ => none

/-- The stripped, non-empty lines of one SSE chunk that begin with
`data:`, with the `data:` tag removed and the payload stripped
(the list-comprehension pair in `_extract_from_sse`).  `str.splitlines`
is modelled as splitting on a newline character. -/
def chunkDataLines (chunk : String) : List String :=
  let lines := ((pySplit chunk "\n").map pyTrim).filter (fun l => l ≠ "")
  (lines.filter (fun l => pyStartsWith l "data:")).map (fun l => pyTrim (pyDrop l 5))

/-- One step of `_extract_from_sse`'s inner loop: a decoded `data:` payload
updates the `last_usage` accumulator when it is a non-empty object whose
extracted usage is itself non-empty (Python truthiness). -/
def sseStep (jsonLoads : String → Option Json) (service : String)
    (acc : Option (List (String × Json))) (dataLine : String) :
    Option (List (String × Json)) :=
  match safe_json_loads jsonLoads dataLine with
  | none => acc
  | some payload =>
    if payload.isEmpty then acc
    else
      match extract_usage_from_payload service payload with
      | some u => if u.isEmpty then acc else some u
      | none => acc

/-- Model of `_extract_from_sse`: split on blank lines, collect `data:`
payloads, and keep the last one that yields a (truthy) usage object. -/
def extract_from_sse (jsonLoads : String → Option Json) (service : String)
    (text : String) : Option (List (String × Json)) :=
  let payloads := ((pySplit text "\n\n").map chunkDataLines).flatten
  payloads.foldl (sseStep jsonLoads service) none

/-- Substring test, the model of Python's `pat in text` for `pat ≠ ""`. -/
def strContains (text pat : String) : Bool :=
  (pySplit text pat).length ≥ 2

/-- The SSE-format detection used by `extract_usage_from_response`. -/
def detectSSE (text : String) : Bool :=
  pyStartsWith text "event:" || strContains text "\ndata:"

/-- Model of `extract_usage_from_response`.  The response bytes are
modelled as the UTF-8 text they decode to (`none` models `None`). -/
def extract_usage_from_response (jsonLoads : String → Option Json)
    (service : String) (responseBytes : Option String) : UsageRecord :=
  match responseBytes with
  | none => normalize_usage service none
  | some bs =>
    if bs = "" then normalize_usage service none
    else
      let text := pyTrim bs
      if text = "" then normalize_usage service none
      else
        let rawUsage :=
          if detectSSE text then extract_from_sse jsonLoads service text
          else
            match safe_json_loads jsonLoads text with
            | some payload =>
              if payload.isEmpty then none
              else extract_usage_from_payload service payload
            | none => none
        normalize_usage service rawUsage

/-! ## Channel catalog (`src/config/cached_config_manager.py`) -/

/-- One catalog-file entry parsed by `_load_configs_from_file`'s loop body:
entries with both `base_url` and `auth_token` keys keep exactly those two
fields plus `api_key` when present (notably, `weight` is dropped);
other entries are skipped (`none`). -/
def parseConfigEntry (fields : List (String × Json)) : Option (List (String × Json)) :=
  match dictGet "base_url" fields, dictGet "auth_token" fields with
  | some baseUrl, some authToken =>
    some ([("base_url", baseUrl), ("auth_token", authToken)] ++
      (match dictGet "api_key" fields with
       | some k => [("api_key", k)]
       | none => []))
  | _, _ => none

/-- The parsed catalog, in file order (`configs` in
`_load_configs_from_file`). -/
def loadConfigsList : List (String × List (String × Json)) → List (String × List (String × Json))
  | [] => []
  | (name, fields) :: rest =>
    match parseConfigEntry fields with
    | some parsed => (name, parsed) :: loadConfigsList rest
    | none => loadConfigsList rest

/-- The name of the last parsed entry whose `active` value is truthy
(`active_config` after the loop in `_load_configs_from_file`). -/
def loadActiveMarked : List (String × List (String × Json)) → Option String
  | [] => none
  | (name, fields) :: rest =>
    match loadActiveMarked rest with
    | some a => some a
    | none =>
      if (parseConfigEntry fields).isSome ∧
          pyTruthy (dictGetD "active" fields (.bool false)) then some name
      else none

/-- Model of `_load_configs_from_file` on decoded catalog-file data:
returns the parsed catalog and the active-channel name.  When no entry is
marked active (Python falsiness, so an active empty-string name also
counts) the first parsed entry is used. -/
def load_configs_from_file (data : List (String × List (String × Json))) :
    List (String × List (String × Json)) × Option String :=
  let configs := loadConfigsList data
  let activeConfig := loadActiveMarked data
  let activeConfig :=
    match activeConfig with
    | some a =>
      if a ≠ "" then some a
      else
        match configs with
        | (n, _) :: _ => some n
        | [] => some a
    | none =>
      match configs with
      | (n, _) :: _ => some n
      | [] => none
  (configs, activeConfig)

/-! ## Load-balance state (`src/core/base_proxy.py`) -/

/-- One per-service section of the LB config, with the defaults
`_ensure_lb_service_section` guarantees (the structure models sections
after default population, so all three fields are present). -/
structure LbSection where
  failureThreshold : Int := 3
  currentFailures : List (String × Int) := []
  excludedConfigs : List String := []
  deriving DecidableEq, Repr

/-- Default per-service section (`_default_lb_config` / the setdefaults in
`_ensure_lb_service_section`). -/
def defaultLbSection : LbSection := {}

/-- The in-memory LB config: a mode plus per-service sections. -/
structure LbConfig where
  mode : String
  services : List (String × LbSection)
  deriving Repr

/-- Model of `_ensure_lb_service_section`: insert the default section when
the service key is missing. -/
def ensure_lb_service_section (cfg : LbConfig) (service : String) : LbConfig :=
  match dictGet service cfg.services with
  | some _ => cfg
  | none => { cfg with services := dictSet service defaultLbSection cfg.services }

/-- Decoded LB config file content (`mode` may be missing). -/
structure LbFileData where
  mode : Option String
  services : List (String × LbSection)

/-- Model of `_load_lb_config` on decoded file data (`none` models a
missing or unreadable file, handled by `_default_lb_config`): defaults the
mode and ensures the `claude` and `codex` sections. -/
def load_lb_config (fileData : Option LbFileData) : LbConfig :=
  let data : LbConfig :=
    match fileData with
    | some d => { mode := d.mode.getD "active-first", services := d.services }
    | none => { mode := "active-first",
                services := [("claude", defaultLbSection), ("codex", defaultLbSection)] }
  ensure_lb_service_section (ensure_lb_service_section data "claude") "codex"

/-- The section-level update performed by `_record_lb_result` once the
guards have passed: a 2xx status resets the failure counter (when nonzero)
and removes the channel from the exclusion list; any other status
increments the counter and appends the channel to the exclusion list once
the counter reaches the threshold. -/
def recordLbSection (s : LbSection) (configName : String) (statusCode : Int) : LbSection :=
  if 200 ≤ statusCode ∧ statusCode < 300 then
    { s with
      currentFailures :=
        if dictGetD configName s.currentFailures 0 ≠ 0 then
          dictSet configName 0 s.currentFailures
        else s.currentFailures,
      excludedConfigs := s.excludedConfigs.erase configName }
  else
    let newCount := dictGetD configName s.currentFailures 0 + 1
    { s with
      currentFailures := dictSet configName newCount s.currentFailures,
      excludedConfigs :=
        if newCount ≥ s.failureThreshold ∧ configName ∉ s.excludedConfigs then
          s.excludedConfigs ++ [configName]
        else s.excludedConfigs }

/-- Model of `_record_lb_result` (the persisted state after the call: the
file is rewritten with the in-memory config whenever it changed).  A
missing `config_name` or a non-`weight-based` mode leaves the state
untouched. -/
def record_lb_result (cfg : LbConfig) (service : String) (configName : Option String)
    (statusCode : Int) : LbConfig :=
  match configName with
  | none => cfg
  | some c =>
    if cfg.mode ≠ "weight-based" then cfg
    else
      let cfg := ensure_lb_service_section cfg service
      let s := dictGetD service cfg.services defaultLbSection
      { cfg with services := dictSet service (recordLbSection s c statusCode) cfg.services }

/-! ## Weighted channel selection (`_select_weighted_config`) -/

/-- The weight used for sorting: `float(cfg.get('weight', 0) or 0)`.
Weights are modelled as `Int` (JSON numbers in this embedding); values on
which Python's `float()` would raise are unreachable for catalogs produced
by `load_configs_from_file` (which never emits a `weight` key) and are
modelled as 0. -/
def weightOf (cfg : List (String × Json)) : Int :=
  let v := dictGetD "weight" cfg (.num 0)
  let v := if pyTruthy v then v else .num 0
  match v with
  | .num n => n
  | .bool _ => 1
  | .str s => pyStrToInt s
  | _ => 0

/-- The comparison key `(-weight, name)` used by `_select_weighted_config`. -/
def selLE (a b : String × List (String × Json)) : Prop :=
  -(weightOf a.2) < -(weightOf b.2) ∨
    (-(weightOf a.2) = -(weightOf b.2) ∧ pyStrLE a.1 b.1 = true)

instance : DecidableRel selLE := fun a b => by
  unfold selLE
  infer_instance

/-- The catalog in selection order: ascending by `(-weight, name)`.
Python's `sorted` is modelled by insertion sort; the key order is total
and (on distinct names) strict, so the sorted list is the same. -/
def sortedConfigs (configs : List (String × List (String × Json))) :
    List (String × List (String × Json)) :=
  configs.insertionSort selLE

/-- Whether a channel passes `_select_weighted_config`'s filter: its
failure count is below the threshold and it is not excluded. -/
def eligibleChannel (s : LbSection) (name : String) : Bool :=
  !(dictGetD name s.currentFailures 0 ≥ s.failureThreshold) && !(name ∈ s.excludedConfigs)

/-- Model of `_select_weighted_config`: `none` for an empty catalog, else
the first eligible channel in `(-weight, name)` order, else the active
name when it is in the catalog, else the first channel of the sorted
order.  `sectionData` is `lb_config['services'].get(service, {})`
(`none` models a missing section, whose `get` defaults match
`defaultLbSection`). -/
def select_weighted_config (sectionData : Option LbSection) (activeConfig : Option String)
    (configs : List (String × List (String × Json))) : Option String :=
  if configs.isEmpty then none
  else
    let s := sectionData.getD defaultLbSection
    let sorted := sortedConfigs configs
    match sorted.find? (fun nc => eligibleChannel s nc.1) with
    | some (name, _) => some name
    | none =>
      let activeInCatalog :=
        match activeConfig with
        | some a => (dictGet a configs).isSome
        | none => false
      if activeInCatalog then activeConfig
      else
        match sorted with
        | (n, _) :: _ => some n
        | [] => none

/-! ## Response-header construction (`BaseProxyService.proxy`) -/

/-- Model of `excluded_response_headers` in `proxy`: the source assigns the
empty dict, so its key set is empty. -/
def excludedResponseHeaderNames : List String := []

/-- ASCII lowercasing of one character (`str.lower()` on the ASCII header
names the claims concern). -/
def pyLowerChar (c : Char) : Char :=
  if 'A' ≤ c ∧ c ≤ 'Z' then Char.ofNat (c.toNat + 32) else c

/-- ASCII lowercasing of a string (`k.lower()` on header names). -/
def pyLower (s : String) : String :=
  String.mk (s.data.map pyLowerChar)

/-- The body of the response-header loop in `proxy`: a header whose
lowercased name is in `excludedResponseHeaderNames` would be kept out of
the returned dict and logged under an annotated name; every other header
goes into both dicts. -/
def responseHeaderStep (acc : List (String × String) × List (String × String))
    (kv : String × String) : List (String × String) × List (String × String) :=
  if pyLower kv.1 ∈ excludedResponseHeaderNames then
    (acc.1, dictSet (kv.1 ++ "[已剔除]") kv.2 acc.2)
  else
    (dictSet kv.1 kv.2 acc.1, dictSet kv.1 kv.2 acc.2)

/-- Model of the response-header loop in `proxy`: build the headers
returned to the client (first component) and the headers recorded in the
log (second component). -/
def buildResponseHeaders (upstream : List (String × String)) :
    List (String × String) × List (String × String) :=
  upstream.foldl responseHeaderStep ([], [])

/-- The headers the claim says are returned: the upstream headers with
`connection` and `transfer-encoding` removed case-insensitively
(spec-side definition, for comparison with `buildResponseHeaders`). -/
def claimStrippedHeaders (upstream : List (String × String)) : List (String × String) :=
  upstream.filter (fun kv => pyLower kv.1 ≠ "connection" ∧ pyLower kv.1 ≠ "transfer-encoding")

/-! ## Per-request LB recording (`BaseProxyService.proxy`) -/

/-- The three control-flow outcomes of `proxy` that decide when
`_record_lb_result` runs: no resolvable channel (the `ValueError` branch,
which returns before any recording), an `httpx.RequestError` from the
upstream send, or an upstream response with a status code. -/
inductive ProxyOutcome where
  | noActiveConfig : ProxyOutcome
  | requestError : ProxyOutcome
  | upstreamResponse (statusCode : Int) : ProxyOutcome
  deriving DecidableEq, Repr

/-- The sequence of status codes `proxy` passes to `_record_lb_result`
for one request, mirroring the `lb_result_recorded` flag: a non-2xx
status is recorded eagerly before streaming and the flag is set; when the
response stream ends the status is recorded only if the flag is still
clear; a request error records 500. -/
def lbRecordCalls (o : ProxyOutcome) : List Int :=
  match o with
  | .noActiveConfig => []
  | .requestError => [500]
  | .upstreamResponse statusCode =>
    let recorded := false
    let (calls, recorded) :=
      if ¬(200 ≤ statusCode ∧ statusCode < 300) then ([statusCode], true)
      else (([] : List Int), recorded)
    let (calls, _) :=
      if ¬recorded then (calls ++ [statusCode], true) else (calls, recorded)
    calls

/-! ## Live-event hub (`src/core/realtime_hub.py`) -/

/-- Model of a `RealTimeRequest` record. -/
structure RTRequest where
  request_id : String
  service : String
  channel : String
  method : String
  path : String
  start_time : String
  status : String
  duration_ms : Int := 0
  status_code : Option Int := none
  request_headers : List (String × String) := []
  response_chunks : List String := []
  response_truncated : Bool := false
  target_url : Option String := none

/-- The in-memory truncation marker appended by `response_chunk`. -/
def truncationMarker : String := "[...响应过长，已截断...]"

/-- The 2 MiB cap on the total length of `response_chunks`
(`2 * 1024 * 1024` in `response_chunk`). -/
def maxChunksLen : Nat := 2 * 1024 * 1024

/-- Total length of the retained response chunks
(`sum(len(c) for c in request.response_chunks)`). -/
def totalChunksLen (chunks : List String) : Nat :=
  (chunks.map String.length).sum

/-- The record-level update `response_chunk` performs on a present record:
append the chunk while the pre-existing total is below the cap, otherwise
append the truncation marker once; always update `duration_ms`. -/
def feedResponseChunk (r : RTRequest) (chunk : String) (durationMs : Int) : RTRequest :=
  let currentLength := totalChunksLen r.response_chunks
  let r :=
    if currentLength < maxChunksLen then
      { r with response_chunks := r.response_chunks ++ [chunk] }
    else if ¬r.response_truncated then
      { r with response_truncated := true,
               response_chunks := r.response_chunks ++ [truncationMarker] }
    else r
  { r with duration_ms := durationMs }

/-- Applying a sequence of `(chunk, duration_ms)` feeds to a record. -/
def applyFeeds (r : RTRequest) (feeds : List (String × Int)) : RTRequest :=
  feeds.foldl (fun r f => feedResponseChunk r f.1 f.2) r

/-- An event broadcast by the hub (`broadcast_event`'s JSON message,
restricted to the fields the modelled operations set). -/
structure HubEvent where
  eventType : String
  request_id : String
  status : Option String := none
  duration_ms : Option Int := none
  response_delta : Option String := none
  status_code : Option Int := none
  response_truncated : Option Bool := none

/-- Hub state: the subscriber set (connections, modelled by identifiers)
and the map of active request records. -/
structure HubState where
  connections : List Nat
  active_requests : List (String × RTRequest)

/-- Model of `broadcast_event`: with no connections nothing happens;
otherwise the message is sent to every connection, and connections whose
send fails (`failing`) are removed.  Returns the new state and the
deliveries made. -/
def broadcast_event (failing : Nat → Bool) (st : HubState) (ev : HubEvent) :
    HubState × List (Nat × HubEvent) :=
  if st.connections.isEmpty then (st, [])
  else
    let delivered := (st.connections.filter (fun c => ¬failing c)).map (fun c => (c, ev))
    ({ st with connections := st.connections.filter (fun c => ¬failing c) }, delivered)

/-- Model of `request_streaming`: for a present request id, set the
STREAMING status and duration and broadcast a progress event; for an
absent id, do nothing. -/
def request_streaming (failing : Nat → Bool) (st : HubState) (requestId : String)
    (durationMs : Int) : HubState × List (Nat × HubEvent) :=
  match dictGet requestId st.active_requests with
  | none => (st, [])
  | some r =>
    let r' := { r with status := "STREAMING", duration_ms := durationMs }
    let st := { st with active_requests := dictSet requestId r' st.active_requests }
    broadcast_event failing st
      { eventType := "progress", request_id := requestId,
        status := some "STREAMING", duration_ms := some durationMs }

/-- Model of `response_chunk`: for a present request id, update the record
via `feedResponseChunk` and broadcast a progress event when the chunk is
not whitespace; for an absent id, do nothing. -/
def response_chunk (failing : Nat → Bool) (st : HubState) (requestId : String)
    (chunk : String) (durationMs : Int) : HubState × List (Nat × HubEvent) :=
  match dictGet requestId st.active_requests with
  | none => (st, [])
  | some r =>
    let r' := feedResponseChunk r chunk durationMs
    let st := { st with active_requests := dictSet requestId r' st.active_requests }
    if pyTrim chunk ≠ "" then
      broadcast_event failing st
        { eventType := "progress", request_id := requestId,
          response_delta := some chunk, duration_ms := some durationMs,
          response_truncated := some r'.response_truncated }
    else (st, [])

/-- Model of `request_completed`: for a present request id, set the
terminal status, status code and duration and broadcast the terminal
event; for an absent id, do nothing.  (The delayed 30-second cleanup task
is outside this state-step model.) -/
def request_completed (failing : Nat → Bool) (st : HubState) (requestId : String)
    (statusCode : Int) (durationMs : Int) (success : Bool) :
    HubState × List (Nat × HubEvent) :=
  match dictGet requestId st.active_requests with
  | none => (st, [])
  | some r =>
    let newStatus := if success then "COMPLETED" else "FAILED"
    let r' := { r with status := newStatus, status_code := some statusCode,
                       duration_ms := durationMs }
    let st := { st with active_requests := dictSet requestId r' st.active_requests }
    broadcast_event failing st
      { eventType := if success then "completed" else "failed",
        request_id := requestId, status := some newStatus,
        status_code := some statusCode, duration_ms := some durationMs }

/-! ## Filter pipeline (`src/filter/cached_request_filter.py`) -/

/-- A loaded filter rule after `load_rules`: the `op`/`source`/`target`
fields of the rule dict (absent keys are `none`; `source` and `target`
are held UTF-8-encoded, as bytes), plus the precompiled regex.  A compiled
pattern is modelled by its substitution function `replacement → data →
result` (`regex.sub`); `none` models both a failed compile and a missing
`regex` key. -/
structure FilterRule where
  op : Option String
  source : Option (List Nat)
  target : Option (List Nat)
  regex : Option (List Nat → List Nat → List Nat)

/-- Model of `bytes.replace(source, target)` for a non-empty `source`:
non-overlapping left-to-right replacement. -/
def bytesReplace (source target : List Nat) : List Nat → List Nat
  | [] => []
  | b :: rest =>
    if h : source ≠ [] ∧ source.isPrefixOf (b :: rest) then
      target ++ bytesReplace source target ((b :: rest).drop source.length)
    else
      b :: bytesReplace source target rest
  termination_by l => l.length
  decreasing_by
  · simp only [List.length_drop]
    have : 0 < source.length := List.length_pos.mpr h.1
    simp
    omega
  · simp

/-- One iteration of `apply_filters`'s rule loop. -/
def applyRule (data : List Nat) (rule : FilterRule) : List Nat :=
  match rule.op, rule.source with
  | some op, some source =>
    if op = "replace" then
      let target := rule.target.getD []
      match rule.regex with
      | some sub => sub target data
      | none => bytesReplace source target data
    else if op = "remove" then
      match rule.regex with
      | some sub => sub [] data
      | none => bytesReplace source [] data
    else data
  | _, _ => data

/-- Model of `CachedRequestFilter.apply_filters` (after rule loading):
an empty rule list or an empty body short-circuits to the input;
otherwise the rules are applied left to right. -/
def apply_filters (rules : List FilterRule) (data : List Nat) : List Nat :=
  if rules.isEmpty ∨ data.isEmpty then data
  else rules.foldl applyRule data

/-! ## Traffic-log cap and usage spill (`_maintain_log_limit`,
`_save_discarded_logs_usage`) -/

/-- The usage block of a traffic-log entry as written by `log_request`
(always a dict with `service` and `metrics`). -/
structure LogEntryUsage where
  service : Option String := none
  metrics : List (String × Json) := []

/-- The fields of a traffic-log entry that `_save_discarded_logs_usage`
reads.  Entries are those previously written by `log_request`, so the
`usage` value, when present, is an object. -/
structure LogEntry where
  usage : Option LogEntryUsage := none
  service : Option String := none
  channel : Option String := none

/-- Model of `entry.get('usage', {}).get('metrics', {})`. -/
def entryMetrics (e : LogEntry) : List (String × Json) :=
  match e.usage with
  | some u => u.metrics
  | none => []

/-- Model of `usage.get('service') or entry.get('service') or 'unknown'`. -/
def entryServiceName (e : LogEntry) : String :=
  strOr (match e.usage with | some u => u.service | none => none)
    (strOr e.service "unknown")

/-- Model of `entry.get('channel') or 'unknown'`. -/
def entryChannelName (e : LogEntry) : String :=
  strOr e.channel "unknown"

/-- Per-service, per-channel metric totals (the `aggregated` /
`history_usage` dicts). -/
abbrev UsageTable : Type := List (String × List (String × Metrics))

/-- One step of the aggregation loop in `_save_discarded_logs_usage`:
entries with a falsy metrics dict are skipped; otherwise the entry's
metrics are merged into its `(service, channel)` bucket. -/
def aggregateStep (agg : UsageTable) (e : LogEntry) : UsageTable :=
  let m := entryMetrics e
  if m.isEmpty then agg
  else
    let service := entryServiceName e
    let channel := entryChannelName e
    let serviceBucket := dictGetD service agg []
    let channelBucket := dictGetD channel serviceBucket emptyMetrics
    dictSet service (dictSet channel (mergeJsonMetrics channelBucket m) serviceBucket) agg

/-- The aggregated usage of the discarded log entries. -/
def aggregateDiscarded (discarded : List LogEntry) : UsageTable :=
  discarded.foldl aggregateStep []

/-- Normalisation of one history-file service bucket: each channel's
metrics object is merged into a fresh `empty_metrics()` (non-dict metric
values contribute nothing). -/
def normalizeBucket (channels : List (String × Json)) : List (String × Metrics) :=
  channels.foldl
    (fun bucket cm =>
      let normalized :=
        match cm.2 with
        | .obj mm => mergeJsonMetrics emptyMetrics mm
        | _ => emptyMetrics
      dictSet cm.1 normalized bucket)
    []

/-- Model of the history-normalisation loop in
`_save_discarded_logs_usage`: non-dict service values are skipped. -/
def normalizeHistory (file : List (String × Json)) : UsageTable :=
  file.foldl
    (fun h sv =>
      match sv.2 with
      | .obj channels => dictSet sv.1 (normalizeBucket channels) h
      | _ => h)
    []

/-- Model of the merge loop in `_save_discarded_logs_usage`: each
aggregated `(service, channel)` total is added onto the (defaulted)
history bucket. -/
def mergeHistoryAgg (h : UsageTable) (agg : UsageTable) : UsageTable :=
  agg.foldl
    (fun h sv =>
      let serviceBucket := dictGetD sv.1 h []
      let serviceBucket :=
        sv.2.foldl
          (fun sb cm =>
            dictSet cm.1 (addMetrics (dictGetD cm.1 sb emptyMetrics) cm.2) sb)
          serviceBucket
      dictSet sv.1 serviceBucket h)
    h

/-- Serialisation of the merged history back to the JSON file
(`serializable` in `_save_discarded_logs_usage`). -/
def serializeHistory (h : UsageTable) : List (String × Json) :=
  h.map (fun sv => (sv.1, Json.obj (sv.2.map (fun cm => (cm.1, Json.obj (metricsToJson cm.2))))))

/-- Model of `_save_discarded_logs_usage` as a function from the decoded
history-file content to the new content: no discarded entries, or an
empty aggregate, leaves the file untouched (the function returns before
writing); otherwise the normalised history plus the aggregate is written. -/
def save_discarded_logs_usage (discarded : List LogEntry)
    (file : List (String × Json)) : List (String × Json) :=
  if discarded.isEmpty then file
  else
    let agg := aggregateDiscarded discarded
    if agg.isEmpty then file
    else serializeHistory (mergeHistoryAgg (normalizeHistory file) agg)

/-- Model of the `logLimit` read in `_maintain_log_limit`: 50 when the
system-config file is absent or unreadable or lacks the key; the value is
a natural number (the UI accepts only 10/30/50/100). -/
def readLogLimit (sysConfig : Option (List (String × Json))) : Nat :=
  match sysConfig with
  | none => 50
  | some cfg =>
    match dictGet "logLimit" cfg with
    | some (.num n) => n.toNat
    | some _ => 50
    | none => 50

/-- The entries discarded by one insert (`existing_logs[:-max_logs]`,
with Python's `[:-0]` yielding the empty list). -/
def discardedOf (maxLogs : Nat) (logs : List LogEntry) : List LogEntry :=
  if logs.length > maxLogs then
    if maxLogs = 0 then [] else logs.take (logs.length - maxLogs)
  else []

/-- Model of `_maintain_log_limit`: append the new entry, and when the
count exceeds the limit spill the oldest entries' usage to the history
file and keep the last `maxLogs` entries (`existing_logs[-max_logs:]`,
with Python's `[-0:]` keeping everything). -/
def maintain_log_limit (maxLogs : Nat) (existing : List LogEntry) (newEntry : LogEntry)
    (historyFile : List (String × Json)) : List LogEntry × List (String × Json) :=
  let logs := existing ++ [newEntry]
  if logs.length > maxLogs then
    let discarded := discardedOf maxLogs logs
    let historyFile := save_discarded_logs_usage discarded historyFile
    let kept := if maxLogs = 0 then logs else logs.drop (logs.length - maxLogs)
    (kept, historyFile)
  else (logs, historyFile)

/-- Reading the history file the way the program itself does: the
normalised metrics of one `(service, channel)` cell (`empty_metrics()`
for anything missing or malformed). -/
def historyLookup (file : List (String × Json)) (service channel : String) : Metrics :=
  dictGetD channel (dictGetD service (normalizeHistory file) []) emptyMetrics

/-- The `(service, channel)` cell of a usage table. -/
def tableLookup (t : UsageTable) (service channel : String) : Metrics :=
  dictGetD channel (dictGetD service t []) emptyMetrics

/-- The total usage the discarded entries attribute to one
`(service, channel)` pair (skipping entries with falsy metrics, as the
aggregation loop does). -/
def discardedSum (discarded : List LogEntry) (service channel : String) : Metrics :=
  match discarded with
  | [] => emptyMetrics
  | e :: rest =>
    let contribution :=
      if ¬(entryMetrics e).isEmpty ∧ entryServiceName e = service ∧
          entryChannelName e = channel then
        jsonMetrics (entryMetrics e)
      else emptyMetrics
    addMetrics contribution (discardedSum rest service channel)

/-! ## Spec-side definitions used to compare claims with the code -/

/-- The weight the claim attributes to a channel: the `weight` value of
its catalog-file entry, absent = 0 (claim C2's words). -/
def fileWeightOf (fields : List (String × Json)) : Int :=
  match dictGet "weight" fields with
  | some (.num n) => n
  | _ => 0

/-- Ascending order on `(-weight, name)` pairs used by claim C2's
description of the sort. -/
def claimSelLE (a b : String × Int) : Prop :=
  -a.2 < -b.2 ∨ (-a.2 = -b.2 ∧ pyStrLE a.1 b.1 = true)

instance : DecidableRel claimSelLE := fun a b => by
  unfold claimSelLE
  infer_instance

/-- Claim C2's described selector: the catalog's channels carry their
catalog-file weights, are sorted by descending weight then ascending
name, and the first eligible one is returned, with the stated fallbacks. -/
def claim_select_weighted (data : List (String × List (String × Json)))
    (s : LbSection) (activeConfig : Option String) : Option String :=
  let chans := data.filterMap
    (fun nf => if (parseConfigEntry nf.2).isSome then some (nf.1, fileWeightOf nf.2) else none)
  if chans.isEmpty then none
  else
    let sorted := chans.insertionSort claimSelLE
    match sorted.find? (fun nc => eligibleChannel s nc.1) with
    | some nc => some nc.1
    | none =>
      let activeInCatalog :=
        match activeConfig with
        | some a => (chans.map Prod.fst).contains a
        | none => false
      if activeInCatalog then activeConfig
      else (sorted.head?).map Prod.fst

/-- Ascending order on channel names only, the sort that
`_select_weighted_config` effectively applies to catalogs produced by
`load_configs_from_file` (all weights absent). -/
def nameLE (a b : String × List (String × Json)) : Prop := pyStrLE a.1 b.1 = true

instance : DecidableRel nameLE := fun a b => by
  unfold nameLE
  infer_instance

/-- The amended selector description: as `select_weighted_config` but
with the catalog sorted by ascending name alone. -/
def spec_select_by_name (sectionData : Option LbSection) (activeConfig : Option String)
    (configs : List (String × List (String × Json))) : Option String :=
  if configs.isEmpty then none
  else
    let s := sectionData.getD defaultLbSection
    let sorted := configs.insertionSort nameLE
    match sorted.find? (fun nc => eligibleChannel s nc.1) with
    | some (name, _) => some name
    | none =>
      let activeInCatalog :=
        match activeConfig with
        | some a => (dictGet a configs).isSome
        | none => false
      if activeInCatalog then activeConfig
      else
        match sorted with
        | (n, _) :: _ => some n
        | [] => none

/-- The lexicographically-first channel name of a catalog (claim C6's
description of the fallback active channel). -/
def lexFirstName {α : Type} (configs : List (String × α)) : Option String :=
  ((configs.map Prod.fst).insertionSort (fun a b => pyStrLE a b = true)).head?

/-- The weight-based LB invariant of claim C3: a channel's failure count
has reached the threshold exactly when the channel is excluded. -/
def lbInvariant (s : LbSection) : Prop :=
  ∀ name : String, dictGetD name s.currentFailures 0 ≥ s.failureThreshold ↔
    name ∈ s.excludedConfigs

/-! ## Invariant predicates used by the claims -/

/-- The reachability invariant of a hub record under chunk feeds of size
at most `K`: the retained total stays below the cap plus one chunk (plus
the marker once truncated), and a truncated record has reached the cap. -/
def chunkInv (K : Nat) (st : RTRequest) : Prop :=
  totalChunksLen st.response_chunks ≤
    (maxChunksLen - 1) + K +
      (if st.response_truncated then truncationMarker.length else 0) ∧
  (st.response_truncated = true → maxChunksLen ≤ totalChunksLen st.response_chunks)

/-- Well-keyed usage table: service keys are pairwise distinct and so are
the channel keys of every bucket (true of every table the program builds,
since they are built by dict assignment). -/
def tableWF (t : UsageTable) : Prop :=
  (t.map Prod.fst).Nodup ∧ ∀ sv ∈ t, (sv.2.map Prod.fst).Nodup

/-! ## Helper lemmas on dictionaries -/

theorem dictGet_dictSet_self {α : Type} (k : String) (v : α) (d : List (String × α)) :
    dictGet k (dictSet k v d) = some v := by
  induction d with
  | nil => simp [dictGet, dictSet]
  | cons kv rest ih =>
    cases kv with
    | mk k1 v1 =>
      by_cases hk : k1 = k
      · simp [dictGet, dictSet, hk]
      · simp [dictGet, dictSet, hk, ih]

theorem dictGet_dictSet_ne {α : Type} {k k' : String} (h : k' ≠ k) (v : α)
    (d : List (String × α)) : dictGet k' (dictSet k v d) = dictGet k' d := by
  induction d with
  | nil => simp [dictGet, dictSet, Ne.symm h]
  | cons kv rest ih =>
    cases kv with
    | mk k1 v1 =>
      by_cases hk : k1 = k
      · subst hk
        simp [dictGet, dictSet, Ne.symm h]
      · simp [dictGet, dictSet, hk, ih]

theorem dictGet_eq_none_of_not_mem {α : Type} {k : String} {d : List (String × α)}
    (h : k ∉ d.map Prod.fst) : dictGet k d = none := by
  induction d with
  | nil => rfl
  | cons kv rest ih =>
    cases kv with
    | mk k1 v1 =>
      simp only [List.map_cons, List.mem_cons] at h
      push_neg at h
      simp [dictGet, Ne.symm h.1, ih h.2]

theorem dictSet_eq_append_of_not_mem {α : Type} {k : String} (v : α)
    {d : List (String × α)} (h : k ∉ d.map Prod.fst) : dictSet k v d = d ++ [(k, v)] := by
  induction d with
  | nil => rfl
  | cons kv rest ih =>
    cases kv with
    | mk k1 v1 =>
      simp only [List.map_cons, List.mem_cons] at h
      push_neg at h
      simp [dictSet, Ne.symm h.1, ih h.2]

theorem dictGet_append_of_none {α : Type} {k : String} {d1 : List (String × α)}
    (d2 : List (String × α)) (h : dictGet k d1 = none) :
    dictGet k (d1 ++ d2) = dictGet k d2 := by
  induction d1 with
  | nil => rfl
  | cons kv rest ih =>
    cases kv with
    | mk k1 v1 =>
      by_cases hk : k1 = k
      · simp [dictGet, hk] at h
      · simp only [dictGet, if_neg hk] at h
        simpa [dictGet, hk] using ih h

theorem map_fst_dictSet {α : Type} (k : String) (v : α) (d : List (String × α)) :
    (dictSet k v d).map Prod.fst =
      if k ∈ d.map Prod.fst then d.map Prod.fst else d.map Prod.fst ++ [k] := by
  induction d with
  | nil => simp [dictSet]
  | cons kv rest ih =>
    cases kv with
    | mk k1 v1 =>
      by_cases hk : k1 = k
      · subst hk
        simp [dictSet]
      · simp only [dictSet, if_neg hk, List.map_cons, ih, List.mem_cons]
        by_cases hm : k ∈ rest.map Prod.fst
        · simp [hm, Ne.symm hk]
        · simp [hm, Ne.symm hk]

theorem nodup_map_fst_dictSet {α : Type} {k : String} {v : α} {d : List (String × α)}
    (h : (d.map Prod.fst).Nodup) : ((dictSet k v d).map Prod.fst).Nodup := by
  rw [map_fst_dictSet]
  by_cases hm : k ∈ d.map Prod.fst
  · simpa [hm] using h
  · simp only [hm, if_false]
    refine List.Nodup.append h (List.nodup_singleton k) ?_
    simpa [List.disjoint_singleton] using hm

theorem mem_dictSet {α : Type} {p : String × α} {k : String} {v : α}
    {d : List (String × α)} (h : p ∈ dictSet k v d) : p ∈ d ∨ p = (k, v) := by
  induction d with
  | nil => simpa [dictSet] using h
  | cons kv rest ih =>
    cases kv with
    | mk k1 v1 =>
      by_cases hk : k1 = k
      · subst hk
        simp only [dictSet, if_true, List.mem_cons, reduceIte] at h
        rcases h with h1 | h1
        · exact Or.inr h1
        · exact Or.inl (List.mem_cons_of_mem _ h1)
      · simp only [dictSet, if_neg hk, List.mem_cons] at h
        rcases h with h1 | h1
        · exact Or.inl (List.mem_cons.mpr (Or.inl h1))
        · rcases ih h1 with h2 | h2
          · exact Or.inl (List.mem_cons_of_mem _ h2)
          · exact Or.inr h2

/-! ## Helper lemmas on metrics -/

theorem addMetrics_empty_left (m : Metrics) : addMetrics emptyMetrics m = m := by
  cases m
  simp [addMetrics, emptyMetrics]

theorem addMetrics_empty_right (m : Metrics) : addMetrics m emptyMetrics = m := by
  cases m
  simp [addMetrics, emptyMetrics]

theorem addMetrics_assoc (a b c : Metrics) :
    addMetrics (addMetrics a b) c = addMetrics a (addMetrics b c) := by
  cases a
  cases b
  cases c
  simp [addMetrics, add_assoc]

theorem mergeJsonMetrics_eq_add (t : Metrics) (src : List (String × Json)) :
    mergeJsonMetrics t src = addMetrics t (jsonMetrics src) := by
  cases t
  simp [mergeJsonMetrics, jsonMetrics, addMetrics, emptyMetrics]

theorem jsonMetrics_metricsToJson (m : Metrics) : jsonMetrics (metricsToJson m) = m := by
  cases m
  simp [jsonMetrics, metricsToJson, mergeJsonMetrics, emptyMetrics, dictGet, pyToInt]

/-! ## Claim C10: the filter pipeline is the identity on an empty body -/

/-- C10: for every loaded filter-rule list, applying the filter pipeline
to the empty byte string returns the empty byte string — the empty body
short-circuits `apply_filters` before any rule (even a regex rule whose
pattern matches the empty string) is applied. -/
theorem C10_apply_filters_empty_body (rules : List FilterRule) :
    apply_filters rules [] = [] := by
  simp [apply_filters]

/-! ## Claim C4: the LB layer is notified exactly once per proxied request -/

/-- C4: for every proxied request (one that reached the upstream dispatch,
i.e. not the no-active-config early return), `_record_lb_result` is
invoked exactly once, with the upstream status code — eagerly-recorded
non-2xx statuses are not recorded again at stream end — or with 500 on an
upstream request error. -/
theorem C4_lb_recorded_exactly_once (o : ProxyOutcome) (h : o ≠ ProxyOutcome.noActiveConfig) :
    (lbRecordCalls o).length = 1 ∧
    (∀ s : Int, o = ProxyOutcome.upstreamResponse s → lbRecordCalls o = [s]) ∧
    (o = ProxyOutcome.requestError → lbRecordCalls o = [500]) := by
  cases o with
  | noActiveConfig => exact absurd rfl h
  | requestError => simp [lbRecordCalls]
  | upstreamResponse s =>
    by_cases hs : 200 ≤ s ∧ s < 300 <;> simp [lbRecordCalls, hs]

/-- Witness for C4 at a concrete non-2xx response. -/
theorem C4_lb_recorded_exactly_once_witness :
    (lbRecordCalls (ProxyOutcome.upstreamResponse 502)).length = 1 ∧
    lbRecordCalls (ProxyOutcome.upstreamResponse 502) = [502] := by
  have h := C4_lb_recorded_exactly_once (ProxyOutcome.upstreamResponse 502) (by decide)
  exact ⟨h.1, h.2.1 502 rfl⟩

/-! ## Claim C9: hub operations on an unknown request id are no-ops -/

/-- C9: for every request id absent from the hub's active-request map,
`request_streaming`, `response_chunk` and `request_completed` leave the
hub state (active requests and subscriber set) unchanged and broadcast
nothing. -/
theorem C9_unknown_request_id_noop (failing : Nat → Bool) (st : HubState)
    (requestId : String) (chunk : String) (d1 d2 d3 : Int) (statusCode : Int)
    (success : Bool) (h : dictGet requestId st.active_requests = none) :
    request_streaming failing st requestId d1 = (st, []) ∧
    response_chunk failing st requestId chunk d2 = (st, []) ∧
    request_completed failing st requestId statusCode d3 success = (st, []) := by
  refine ⟨?_, ?_, ?_⟩ <;> simp [request_streaming, response_chunk, request_completed, h]

/-- Witness for C9 on a hub with one live request and one subscriber and
an id that is not live. -/
theorem C9_unknown_request_id_noop_witness :
    request_streaming (fun _ => false)
      (HubState.mk [7]
        [("known", RTRequest.mk "known" "claude" "c1" "POST" "/v1" "t" "PENDING"
          0 none [] [] false none)]) "unknown" 5 =
      (HubState.mk [7]
        [("known", RTRequest.mk "known" "claude" "c1" "POST" "/v1" "t" "PENDING"
          0 none [] [] false none)], []) := by
  exact (C9_unknown_request_id_noop (fun _ => false) _ "unknown" "x" 5 6 7 200 true
    (by simp [dictGet])).1

/-! ## Claim C1: response headers are forwarded with nothing stripped -/

/-- Counterexample to C1: an upstream response carrying `Connection` and
`Transfer-Encoding` headers is returned to the client with both headers
still present, because the code's exclusion set is the empty dict — the
claim says they would be removed. -/
theorem C1_counterexample :
    (buildResponseHeaders
      [("Connection", "keep-alive"), ("Transfer-Encoding", "chunked"),
       ("Content-Type", "application/json")]).1 =
      [("Connection", "keep-alive"), ("Transfer-Encoding", "chunked"),
       ("Content-Type", "application/json")] ∧
    claimStrippedHeaders
      [("Connection", "keep-alive"), ("Transfer-Encoding", "chunked"),
       ("Content-Type", "application/json")] =
      [("Content-Type", "application/json")] ∧
    (buildResponseHeaders
      [("Connection", "keep-alive"), ("Transfer-Encoding", "chunked"),
       ("Content-Type", "application/json")]).1 ≠
    claimStrippedHeaders
      [("Connection", "keep-alive"), ("Transfer-Encoding", "chunked"),
       ("Content-Type", "application/json")] := by
  refine ⟨by decide, by decide, by decide⟩

/-- A key is absent from a dict exactly when lookup yields `none`. -/
theorem dictGet_eq_none_iff {α : Type} {k : String} {d : List (String × α)} :
    dictGet k d = none ↔ k ∉ d.map Prod.fst := by
  constructor
  · intro h hmem
    induction d with
    | nil => simp at hmem
    | cons kv rest ih =>
      cases kv with
      | mk k1 v1 =>
        by_cases hk : k1 = k
        · simp [dictGet, hk] at h
        · simp only [dictGet, if_neg hk] at h
          simp only [List.map_cons, List.mem_cons] at hmem
          rcases hmem with he | hmem
          · exact hk he.symm
          · exact ih h hmem
  · exact dictGet_eq_none_of_not_mem

/-- The pair-valued header fold splits into two independent folds (the
exclusion set is empty, so every header is assigned into both dicts). -/
theorem buildResponseHeaders_eq_fold (upstream : List (String × String)) :
    buildResponseHeaders upstream =
      (upstream.foldl (fun d kv => dictSet kv.1 kv.2 d) [],
       upstream.foldl (fun d kv => dictSet kv.1 kv.2 d) []) := by
  suffices h : ∀ (hs : List (String × String)) (r l : List (String × String)),
      hs.foldl responseHeaderStep (r, l) =
      (hs.foldl (fun d kv => dictSet kv.1 kv.2 d) r,
       hs.foldl (fun d kv => dictSet kv.1 kv.2 d) l) by
    exact h upstream [] []
  intro hs
  induction hs with
  | nil => intro r l; rfl
  | cons kv rest ih =>
    intro r l
    have hstep : responseHeaderStep (r, l) kv = (dictSet kv.1 kv.2 r, dictSet kv.1 kv.2 l) := by
      simp only [responseHeaderStep, excludedResponseHeaderNames]
      rw [if_neg (List.not_mem_nil _)]
    calc (kv :: rest).foldl responseHeaderStep (r, l)
        = List.foldl responseHeaderStep (responseHeaderStep (r, l) kv) rest := by
          rw [List.foldl_cons]
      _ = List.foldl responseHeaderStep (dictSet kv.1 kv.2 r, dictSet kv.1 kv.2 l) rest := by
          rw [hstep]
      _ = (rest.foldl (fun d kv => dictSet kv.1 kv.2 d) (dictSet kv.1 kv.2 r),
           rest.foldl (fun d kv => dictSet kv.1 kv.2 d) (dictSet kv.1 kv.2 l)) := ih _ _
      _ = ((kv :: rest).foldl (fun d kv => dictSet kv.1 kv.2 d) r,
           (kv :: rest).foldl (fun d kv => dictSet kv.1 kv.2 d) l) := by
          rw [List.foldl_cons, List.foldl_cons]

/-- Folding Python-dict assignment over entries with pairwise-distinct
keys reproduces the entry list. -/
theorem foldl_dictSet_eq_append {α : Type} (hs : List (String × α)) :
    ∀ acc : List (String × α), (hs.map Prod.fst).Nodup →
      (∀ k ∈ hs.map Prod.fst, dictGet k acc = none) →
      hs.foldl (fun d kv => dictSet kv.1 kv.2 d) acc = acc ++ hs := by
  induction hs with
  | nil => intro acc _ _; simp
  | cons kv rest ih =>
    intro acc hnodup hfresh
    cases kv with
    | mk k v =>
      simp only [List.map_cons, List.nodup_cons] at hnodup
      have hkacc : dictGet k acc = none := hfresh k (by simp)
      have hset : dictSet k v acc = acc ++ [(k, v)] :=
        dictSet_eq_append_of_not_mem v (dictGet_eq_none_iff.mp hkacc)
      have hfresh' : ∀ k' ∈ rest.map Prod.fst, dictGet k' (acc ++ [(k, v)]) = none := by
        intro k' hk'
        have hne : k' ≠ k := by
          intro e
          exact hnodup.1 (e ▸ hk')
        rw [dictGet_append_of_none _ (hfresh k' (List.mem_cons_of_mem _ hk'))]
        simp [dictGet, Ne.symm hne]
      simp only [List.foldl_cons, hset]
      rw [ih (acc ++ [(k, v)]) hnodup.2 hfresh']
      simp

/-- C1 (amended): the code forwards every upstream response header
unchanged — the exclusion set is empty, so `connection` and
`transfer-encoding` are *not* removed; for upstream headers with
pairwise-distinct names the returned header dict is exactly the upstream
header list. -/
theorem C1_amended_headers_forwarded_unchanged (upstream : List (String × String))
    (h : (upstream.map Prod.fst).Nodup) :
    (buildResponseHeaders upstream).1 = upstream ∧
    (buildResponseHeaders upstream).2 = upstream := by
  rw [buildResponseHeaders_eq_fold]
  have := foldl_dictSet_eq_append upstream [] h (by intro k _; rfl)
  simp_all

/-- Witness for the amended C1 at a concrete header list containing the
two hop-by-hop names the claim mentions. -/
theorem C1_amended_headers_forwarded_unchanged_witness :
    (buildResponseHeaders
      [("Connection", "keep-alive"), ("Transfer-Encoding", "chunked"),
       ("X-Request-Id", "abc")]).1 =
      [("Connection", "keep-alive"), ("Transfer-Encoding", "chunked"),
       ("X-Request-Id", "abc")] := by
  exact (C1_amended_headers_forwarded_unchanged
    [("Connection", "keep-alive"), ("Transfer-Encoding", "chunked"),
     ("X-Request-Id", "abc")] (by decide)).1

/-! ## Claim C6: the fallback active channel is the first in file order -/

/-- Counterexample to C6: a catalog file listing `b` before `a`, with no
entry marked active, yields active channel `b` (the first channel in file
order), not the lexicographically-first name `a` that the claim states. -/
theorem C6_counterexample :
    (load_configs_from_file
      [("b", [("base_url", Json.str "https://b.example"), ("auth_token", Json.str "tb")]),
       ("a", [("base_url", Json.str "https://a.example"), ("auth_token", Json.str "ta")])]).2 =
      some "b" ∧
    lexFirstName
      (load_configs_from_file
        [("b", [("base_url", Json.str "https://b.example"), ("auth_token", Json.str "tb")]),
         ("a", [("base_url", Json.str "https://a.example"), ("auth_token", Json.str "ta")])]).1 =
      some "a" ∧
    (some "b" : Option String) ≠ some "a" := by
  refine ⟨by decide, by decide, by decide⟩

/-- With no truthy `active` flag in the file, no entry gets marked. -/
theorem loadActiveMarked_eq_none {data : List (String × List (String × Json))}
    (h : ∀ nf ∈ data, ¬ pyTruthy (dictGetD "active" nf.2 (Json.bool false))) :
    loadActiveMarked data = none := by
  induction data with
  | nil => rfl
  | cons nf rest ih =>
    have hrest := ih (fun x hx => h x (List.mem_cons_of_mem _ hx))
    have hhead := h nf (List.mem_cons_self _ _)
    cases nf with
    | mk n f =>
      simp only [loadActiveMarked, hrest]
      rw [if_neg]
      intro hc
      exact hhead hc.2

/-- C6 (amended): for every catalog file in which no channel carries a
truthy `active` flag, the active channel is the *first parsed channel in
file order* (the code takes `list(configs.keys())[0]` of an
insertion-ordered dict), not the lexicographically-first name. -/
theorem C6_amended_active_is_first_in_file_order
    (data : List (String × List (String × Json)))
    (h : ∀ nf ∈ data, ¬ pyTruthy (dictGetD "active" nf.2 (Json.bool false))) :
    (load_configs_from_file data).2 =
      ((load_configs_from_file data).1.head?).map Prod.fst := by
  simp only [load_configs_from_file, loadActiveMarked_eq_none h]
  cases hc : loadConfigsList data with
  | nil => rfl
  | cons nf rest => cases nf; rfl

/-- Witness for the amended C6 at a concrete two-channel catalog in
reverse-alphabetical file order. -/
theorem C6_amended_active_is_first_in_file_order_witness :
    (load_configs_from_file
      [("b", [("base_url", Json.str "https://b.example"), ("auth_token", Json.str "tb")]),
       ("a", [("base_url", Json.str "https://a.example"), ("auth_token", Json.str "ta")])]).2 =
      some "b" := by
  rw [C6_amended_active_is_first_in_file_order _ (by decide)]
  decide

/-! ## Claim C2: the weighted selector never sees catalog weights -/

/-- Counterexample to C2: with catalog file `b` (weight 5) and `a` (no
weight), no failures and `b` active, the claim's described selector picks
`b` (highest weight), but the code picks `a`: the cached catalog loader
drops the `weight` field, so the selector sorts every channel with weight
0, i.e. by name alone. -/
theorem C2_counterexample :
    claim_select_weighted
      [("b", [("base_url", Json.str "https://b.example"), ("auth_token", Json.str "tb"),
              ("weight", Json.num 5)]),
       ("a", [("base_url", Json.str "https://a.example"), ("auth_token", Json.str "ta")])]
      defaultLbSection (some "b") = some "b" ∧
    select_weighted_config (some defaultLbSection) (some "b")
      (load_configs_from_file
        [("b", [("base_url", Json.str "https://b.example"), ("auth_token", Json.str "tb"),
                ("weight", Json.num 5)]),
         ("a", [("base_url", Json.str "https://a.example"), ("auth_token", Json.str "ta")])]).1 =
      some "a" ∧
    (some "b" : Option String) ≠ some "a" := by
  refine ⟨by decide, by decide, by decide⟩

/-- Ordered insertion only inspects the relation between the inserted
element and list elements. -/
theorem orderedInsert_congr {α : Type} (r s : α → α → Prop) [DecidableRel r]
    [DecidableRel s] (a : α) :
    ∀ l : List α, (∀ b ∈ l, (r a b ↔ s a b)) →
      l.orderedInsert r a = l.orderedInsert s a := by
  intro l
  induction l with
  | nil => intro _; rfl
  | cons b t ih =>
    intro h
    simp only [List.orderedInsert]
    rw [if_congr (h b (List.mem_cons_self b t)) rfl
      (by rw [ih (fun x hx => h x (List.mem_cons_of_mem _ hx))])]

/-- Insertion sort only inspects the relation between list elements. -/
theorem insertionSort_congr {α : Type} (r s : α → α → Prop) [DecidableRel r]
    [DecidableRel s] :
    ∀ l : List α, (∀ a ∈ l, ∀ b ∈ l, (r a b ↔ s a b)) →
      l.insertionSort r = l.insertionSort s := by
  intro l
  induction l with
  | nil => intro _; rfl
  | cons a t ih =>
    intro h
    simp only [List.insertionSort]
    rw [ih (fun x hx y hy =>
      h x (List.mem_cons_of_mem _ hx) y (List.mem_cons_of_mem _ hy))]
    refine orderedInsert_congr r s a _ ?_
    intro b hb
    have hbt : b ∈ t := (List.perm_insertionSort s t).mem_iff.mp hb
    exact h a (List.mem_cons_self a t) b (List.mem_cons_of_mem _ hbt)

/-- A catalog entry without a `weight` key sorts with weight 0. -/
theorem weightOf_eq_zero_of_no_weight {cfg : List (String × Json)}
    (h : dictGet "weight" cfg = none) : weightOf cfg = 0 := by
  simp [weightOf, dictGetD, h, pyTruthy]

/-- On weight-free entries the selector's `(-weight, name)` order is the
name order. -/
theorem selLE_iff_nameLE {a b : String × List (String × Json)}
    (ha : dictGet "weight" a.2 = none) (hb : dictGet "weight" b.2 = none) :
    selLE a b ↔ nameLE a b := by
  simp [selLE, nameLE, weightOf_eq_zero_of_no_weight ha, weightOf_eq_zero_of_no_weight hb]

/-- Every entry parsed by the catalog loader lacks the `weight` key. -/
theorem parseConfigEntry_weight {f p : List (String × Json)}
    (h : parseConfigEntry f = some p) : dictGet "weight" p = none := by
  unfold parseConfigEntry at h
  cases hb : dictGet "base_url" f with
  | none => rw [hb] at h; cases h
  | some bu =>
    cases ht : dictGet "auth_token" f with
    | none => rw [hb, ht] at h; cases h
    | some tok =>
      rw [hb, ht] at h
      cases ha : dictGet "api_key" f with
      | none =>
        rw [ha] at h
        cases h
        rfl
      | some k =>
        rw [ha] at h
        cases h
        rfl

/-- Every channel in a loaded catalog lacks the `weight` key. -/
theorem loadConfigsList_no_weight :
    ∀ data : List (String × List (String × Json)),
      ∀ nc ∈ loadConfigsList data, dictGet "weight" nc.2 = none := by
  intro data
  induction data with
  | nil => intro nc h; simp [loadConfigsList] at h
  | cons nf rest ih =>
    intro nc h
    cases nf with
    | mk n f =>
      cases hp : parseConfigEntry f with
      | none =>
        simp only [loadConfigsList, hp] at h
        exact ih nc h
      | some p =>
        simp only [loadConfigsList, hp, List.mem_cons] at h
        rcases h with h | h
        · subst h
          exact parseConfigEntry_weight hp
        · exact ih nc h

/-- On a weight-free catalog the selector's sort is the name sort. -/
theorem sortedConfigs_eq_name_sort {configs : List (String × List (String × Json))}
    (hw : ∀ nc ∈ configs, dictGet "weight" nc.2 = none) :
    sortedConfigs configs = configs.insertionSort nameLE := by
  unfold sortedConfigs
  exact insertionSort_congr selLE nameLE configs
    (fun a haMem b hbMem => selLE_iff_nameLE (hw a haMem) (hw b hbMem))

/-- On a weight-free catalog, `_select_weighted_config` reduces to the
name-ordered selector. -/
theorem select_weighted_eq_by_name_of_no_weight (sectionData : Option LbSection)
    (activeConfig : Option String) (configs : List (String × List (String × Json)))
    (hw : ∀ nc ∈ configs, dictGet "weight" nc.2 = none) :
    select_weighted_config sectionData activeConfig configs =
      spec_select_by_name sectionData activeConfig configs := by
  unfold select_weighted_config spec_select_by_name
  rw [sortedConfigs_eq_name_sort hw]

/-- C2 (amended): the catalog loader drops every `weight` field, so in
weight-based mode the selector sees no weights at all: for every catalog
file, the parsed catalog is weight-free and the selection is by ascending
channel name (threshold/exclusion filter, then active-name fallback, then
the first of the name-sorted order) — not by the catalog file's weights
as the claim states. -/
theorem C2_amended_selector_ignores_file_weights
    (data : List (String × List (String × Json))) (sectionData : Option LbSection)
    (activeConfig : Option String) :
    (∀ nc ∈ (load_configs_from_file data).1, dictGet "weight" nc.2 = none) ∧
    select_weighted_config sectionData activeConfig (load_configs_from_file data).1 =
      spec_select_by_name sectionData activeConfig (load_configs_from_file data).1 := by
  have hw : ∀ nc ∈ loadConfigsList data, dictGet "weight" nc.2 = none :=
    loadConfigsList_no_weight data
  exact ⟨hw, select_weighted_eq_by_name_of_no_weight _ _ _ hw⟩

/-! ## Claim C3: the failure-count/exclusion biconditional -/

/-- C3: in weight-based mode, every persisted load-balance update
preserves the biconditional `currentFailures[c] ≥ failureThreshold ↔
c ∈ excludedConfigs` (for well-formed reachable states: threshold at
least 1, duplicate-free exclusion list): a non-2xx result increments the
channel's failure count and adds it to the exclusion list once the count
reaches the threshold; a 2xx result resets the count to 0 and removes the
channel.  The default section (used for states loaded from a file with a
missing section) satisfies the biconditional, and `_record_lb_result`
applies exactly this section update to the service's section. -/
theorem C3_lb_failures_excluded_biconditional (s : LbSection) (c : String)
    (statusCode : Int) (hInv : lbInvariant s) (hth : 1 ≤ s.failureThreshold)
    (hnd : s.excludedConfigs.Nodup) :
    lbInvariant (recordLbSection s c statusCode) ∧
    (recordLbSection s c statusCode).excludedConfigs.Nodup ∧
    (¬(200 ≤ statusCode ∧ statusCode < 300) →
      dictGetD c (recordLbSection s c statusCode).currentFailures 0 =
        dictGetD c s.currentFailures 0 + 1 ∧
      (dictGetD c s.currentFailures 0 + 1 ≥ s.failureThreshold →
        c ∈ (recordLbSection s c statusCode).excludedConfigs)) ∧
    ((200 ≤ statusCode ∧ statusCode < 300) →
      dictGetD c (recordLbSection s c statusCode).currentFailures 0 = 0 ∧
      c ∉ (recordLbSection s c statusCode).excludedConfigs) ∧
    lbInvariant defaultLbSection ∧
    (∀ (cfg : LbConfig), cfg.mode = "weight-based" →
      ∀ service : String, dictGet service cfg.services = some s →
      dictGet service (record_lb_result cfg service (some c) statusCode).services =
        some (recordLbSection s c statusCode)) := by
  have hdflt : lbInvariant defaultLbSection := by
    intro name
    simp [defaultLbSection, dictGetD, dictGet]
  have hfull : ∀ (cfg : LbConfig), cfg.mode = "weight-based" →
      ∀ service : String, dictGet service cfg.services = some s →
      dictGet service (record_lb_result cfg service (some c) statusCode).services =
        some (recordLbSection s c statusCode) := by
    intro cfg hmode service hsec
    simp [record_lb_result, hmode, ensure_lb_service_section, hsec, dictGetD,
      dictGet_dictSet_self]
  by_cases hsucc : 200 ≤ statusCode ∧ statusCode < 300
  · -- success branch: reset and un-exclude
    have hT : (recordLbSection s c statusCode).failureThreshold = s.failureThreshold := by
      unfold recordLbSection
      rw [if_pos hsucc]
    have hF : (recordLbSection s c statusCode).currentFailures =
        (if dictGetD c s.currentFailures 0 ≠ 0 then dictSet c 0 s.currentFailures
         else s.currentFailures) := by
      unfold recordLbSection
      rw [if_pos hsucc]
    have hE : (recordLbSection s c statusCode).excludedConfigs =
        s.excludedConfigs.erase c := by
      unfold recordLbSection
      rw [if_pos hsucc]
    have hfail0 : dictGetD c (recordLbSection s c statusCode).currentFailures 0 = 0 := by
      rw [hF]
      by_cases hz : dictGetD c s.currentFailures 0 ≠ 0
      · simp only [if_pos hz]
        simp [dictGetD, dictGet_dictSet_self]
      · push_neg at hz
        simpa [hz] using hz
    have hfother : ∀ name : String, name ≠ c →
        dictGetD name (recordLbSection s c statusCode).currentFailures 0 =
          dictGetD name s.currentFailures 0 := by
      intro name hname
      rw [hF]
      by_cases hz : dictGetD c s.currentFailures 0 ≠ 0
      · simp only [if_pos hz]
        simp [dictGetD, dictGet_dictSet_ne hname]
      · simp [hz]
    have hnotmem : c ∉ (recordLbSection s c statusCode).excludedConfigs := by
      rw [hE]
      intro hmem
      exact ((hnd.mem_erase_iff.mp hmem).1) rfl
    refine ⟨?_, ?_, ?_, ?_, hdflt, hfull⟩
    · intro name
      rw [hT]
      by_cases hname : name = c
      · subst hname
        rw [hfail0]
        constructor
        · intro hge
          exact absurd hge (by omega)
        · intro hmem
          exact absurd hmem hnotmem
      · rw [hfother name hname, hE, List.mem_erase_of_ne hname]
        exact hInv name
    · rw [hE]
      exact hnd.erase c
    · intro hfailhyp
      exact absurd hsucc hfailhyp
    · intro _
      exact ⟨hfail0, hnotmem⟩
  · -- failure branch: increment and possibly exclude
    have hT : (recordLbSection s c statusCode).failureThreshold = s.failureThreshold := by
      unfold recordLbSection
      rw [if_neg hsucc]
    have hF : (recordLbSection s c statusCode).currentFailures =
        dictSet c (dictGetD c s.currentFailures 0 + 1) s.currentFailures := by
      unfold recordLbSection
      rw [if_neg hsucc]
    have hE : (recordLbSection s c statusCode).excludedConfigs =
        (if dictGetD c s.currentFailures 0 + 1 ≥ s.failureThreshold ∧
            c ∉ s.excludedConfigs then
          s.excludedConfigs ++ [c]
        else s.excludedConfigs) := by
      unfold recordLbSection
      rw [if_neg hsucc]
    have hfailc : dictGetD c (recordLbSection s c statusCode).currentFailures 0 =
        dictGetD c s.currentFailures 0 + 1 := by
      rw [hF]
      simp [dictGetD, dictGet_dictSet_self]
    have hmemE : ∀ name : String,
        name ∈ (recordLbSection s c statusCode).excludedConfigs ↔
          (name ∈ s.excludedConfigs ∨
            (name = c ∧ dictGetD c s.currentFailures 0 + 1 ≥ s.failureThreshold ∧
              c ∉ s.excludedConfigs)) := by
      intro name
      rw [hE]
      by_cases hcond : dictGetD c s.currentFailures 0 + 1 ≥ s.failureThreshold ∧
          c ∉ s.excludedConfigs
      · simp [hcond, List.mem_append]
      · simp only [if_neg hcond]
        constructor
        · intro hm
          exact Or.inl hm
        · intro hm
          rcases hm with hm | hm
          · exact hm
          · exact absurd ⟨hm.2.1, hm.2.2⟩ hcond
    have hmemc : dictGetD c s.currentFailures 0 + 1 ≥ s.failureThreshold →
        c ∈ (recordLbSection s c statusCode).excludedConfigs := by
      intro hge
      rw [hmemE c]
      by_cases hmem : c ∈ s.excludedConfigs
      · exact Or.inl hmem
      · exact Or.inr ⟨rfl, hge, hmem⟩
    refine ⟨?_, ?_, ?_, ?_, hdflt, hfull⟩
    · intro name
      rw [hT, hmemE name]
      by_cases hname : name = c
      · subst hname
        rw [hfailc]
        constructor
        · intro hge
          by_cases hmem : name ∈ s.excludedConfigs
          · exact Or.inl hmem
          · exact Or.inr ⟨rfl, hge, hmem⟩
        · intro hm
          rcases hm with hm | hm
          · have hge := (hInv name).mpr hm
            omega
          · exact hm.2.1
      · have hf : dictGetD name (recordLbSection s c statusCode).currentFailures 0 =
            dictGetD name s.currentFailures 0 := by
          rw [hF]
          simp [dictGetD, dictGet_dictSet_ne hname]
        rw [hf]
        constructor
        · intro hge
          exact Or.inl ((hInv name).mp hge)
        · intro hm
          rcases hm with hm | hm
          · exact (hInv name).mpr hm
          · exact absurd hm.1 hname
    · rw [hE]
      by_cases hcond : dictGetD c s.currentFailures 0 + 1 ≥ s.failureThreshold ∧
          c ∉ s.excludedConfigs
      · simp only [if_pos hcond]
        refine List.Nodup.append hnd (List.nodup_singleton c) ?_
        simpa [List.disjoint_singleton] using hcond.2
      · simpa [hcond] using hnd
    · intro _
      exact ⟨hfailc, hmemc⟩
    · intro hsucc2
      exact absurd hsucc2 hsucc

/-- Witness for C3: recording a failure on a fresh default section (one
short of the threshold twice, then at it) — concrete check of the update
equations and the preserved biconditional. -/
theorem C3_lb_failures_excluded_biconditional_witness :
    lbInvariant (recordLbSection defaultLbSection "a" 500) ∧
    dictGetD "a" (recordLbSection defaultLbSection "a" 500).currentFailures 0 = 1 ∧
    "a" ∉ (recordLbSection defaultLbSection "a" 500).excludedConfigs := by
  have h := C3_lb_failures_excluded_biconditional defaultLbSection "a" 500
    (by
      intro name
      simp [defaultLbSection, dictGetD, dictGet])
    (by decide) (by decide)
  have hfail := (h.2.2.1 (by decide)).1
  refine ⟨h.1, ?_, ?_⟩
  · rw [hfail]
    decide
  · intro hmem
    have := (h.1 "a").mpr hmem
    rw [hfail] at this
    revert this
    decide

/-! ## Claim C7: the hub's 2 MiB response-chunk cap -/

theorem totalChunksLen_append (a : List String) (c : String) :
    totalChunksLen (a ++ [c]) = totalChunksLen a + c.length := by
  simp [totalChunksLen]

theorem totalChunksLen_singleton (c : String) : totalChunksLen [c] = c.length := by
  simp [totalChunksLen]

/-- Counterexample to C7: the cap is checked *before* appending, so a
single 3 MiB chunk fed to a fresh record leaves `response_chunks` holding
3 MiB — more than the claimed 2 MiB plus one truncation marker. -/
theorem C7_counterexample :
    totalChunksLen
      (feedResponseChunk
        (RTRequest.mk "r" "claude" "c1" "POST" "/v1" "t" "STREAMING" 0 none [] [] false none)
        (String.mk (List.replicate (3 * 1024 * 1024) 'a')) 5).response_chunks >
      maxChunksLen + truncationMarker.length := by
  have hlen : (String.mk (List.replicate (3 * 1024 * 1024) 'a')).length =
      3 * 1024 * 1024 := List.length_replicate _ _
  have hfeed : ∀ chunk : String,
      (feedResponseChunk
        (RTRequest.mk "r" "claude" "c1" "POST" "/v1" "t" "STREAMING" 0 none [] [] false none)
        chunk 5).response_chunks = [chunk] := by
    intro chunk
    simp [feedResponseChunk, totalChunksLen, maxChunksLen]
  rw [hfeed, totalChunksLen_singleton, hlen]
  decide

/-- When the retained total is still below the cap, a feed appends the
chunk and updates the duration. -/
theorem feedResponseChunk_append {st : RTRequest} (chunk : String) (d : Int)
    (hc : totalChunksLen st.response_chunks < maxChunksLen) :
    feedResponseChunk st chunk d =
      { st with response_chunks := st.response_chunks ++ [chunk], duration_ms := d } := by
  unfold feedResponseChunk
  simp only [if_pos hc]

/-- When the cap is reached on a not-yet-truncated record, a feed appends
the truncation marker once. -/
theorem feedResponseChunk_marker {st : RTRequest} (chunk : String) (d : Int)
    (hge : maxChunksLen ≤ totalChunksLen st.response_chunks)
    (ht : st.response_truncated = false) :
    feedResponseChunk st chunk d =
      { st with response_truncated := true,
                response_chunks := st.response_chunks ++ [truncationMarker],
                duration_ms := d } := by
  unfold feedResponseChunk
  simp [Nat.not_lt.mpr hge, ht]

/-- Once the record is truncated (equivalently, its retained total has
reached the cap), a further feed only updates `duration_ms`. -/
theorem feedResponseChunk_of_truncated {st : RTRequest}
    (ht : st.response_truncated = true)
    (hge : maxChunksLen ≤ totalChunksLen st.response_chunks) (chunk : String) (d : Int) :
    feedResponseChunk st chunk d = { st with duration_ms := d } := by
  unfold feedResponseChunk
  simp only [Nat.not_lt.mpr hge, ht, if_false, not_true]

theorem chunkInv_step {K : Nat} {st : RTRequest} (hInv : chunkInv K st)
    (chunk : String) (d : Int) (hlen : chunk.length ≤ K) :
    chunkInv K (feedResponseChunk st chunk d) := by
  obtain ⟨h1, h2⟩ := hInv
  by_cases hc : totalChunksLen st.response_chunks < maxChunksLen
  · rw [feedResponseChunk_append chunk d hc]
    have htr : st.response_truncated = false := by
      cases htrc : st.response_truncated
      · rfl
      · exact absurd (h2 htrc) (by omega)
    simp only [htr, if_false, Bool.false_eq_true] at h1
    constructor
    · simp [totalChunksLen_append, htr]
      omega
    · simp [htr]
  · push_neg at hc
    by_cases htr : st.response_truncated = true
    · rw [feedResponseChunk_of_truncated htr hc chunk d]
      exact ⟨h1, fun _ => hc⟩
    · have htr' : st.response_truncated = false := by
        cases htrc : st.response_truncated
        · rfl
        · exact absurd htrc htr
      rw [feedResponseChunk_marker chunk d hc htr']
      simp only [htr', if_false, Bool.false_eq_true] at h1
      constructor
      · simp [totalChunksLen_append]
        omega
      · intro _
        simp [totalChunksLen_append]
        omega

/-- C7 (amended): the 2 MiB check runs *before* each append, so after any
sequence of feeds whose chunks are each at most `K` characters, the
retained total is at most `2 MiB − 1 + K` plus (once) the truncation
marker — a single oversized chunk can exceed the claim's plain 2 MiB
bound by its own length; and once the truncation marker has been
appended, feeding further chunks updates only `duration_ms` and appends
nothing more. -/
theorem C7_amended_chunk_cap (r0 : RTRequest) (feeds : List (String × Int)) (K : Nat)
    (h0c : r0.response_chunks = []) (h0t : r0.response_truncated = false)
    (hK : ∀ f ∈ feeds, f.1.length ≤ K) :
    totalChunksLen (applyFeeds r0 feeds).response_chunks ≤
      (maxChunksLen - 1) + K +
        (if (applyFeeds r0 feeds).response_truncated then truncationMarker.length else 0) ∧
    ((applyFeeds r0 feeds).response_truncated = true →
      ∀ (chunk : String) (d : Int),
        feedResponseChunk (applyFeeds r0 feeds) chunk d =
          { applyFeeds r0 feeds with duration_ms := d }) := by
  have hInv : chunkInv K (applyFeeds r0 feeds) := by
    have h0 : chunkInv K r0 := by
      constructor
      · rw [h0c, h0t]
        simp [totalChunksLen]
      · rw [h0t]
        intro hfalse
        cases hfalse
    clear h0c h0t
    induction feeds generalizing r0 with
    | nil => exact h0
    | cons f fs ih =>
      have hstep := chunkInv_step h0 f.1 f.2 (hK f (List.mem_cons_self f fs))
      have := ih (feedResponseChunk r0 f.1 f.2)
        (fun g hg => hK g (List.mem_cons_of_mem _ hg)) hstep
      simpa [applyFeeds] using this
  refine ⟨hInv.1, ?_⟩
  intro htr chunk d
  exact feedResponseChunk_of_truncated htr (hInv.2 htr) chunk d

/-- Witness for the amended C7 at a concrete feed sequence. -/
theorem C7_amended_chunk_cap_witness :
    totalChunksLen
      (applyFeeds
        (RTRequest.mk "r" "claude" "c1" "POST" "/v1" "t" "STREAMING" 0 none [] [] false none)
        [("ab", 3), ("c", 4)]).response_chunks ≤
      (maxChunksLen - 1) + 2 +
        (if (applyFeeds
              (RTRequest.mk "r" "claude" "c1" "POST" "/v1" "t" "STREAMING" 0 none [] [] false
                none)
              [("ab", 3), ("c", 4)]).response_truncated then
          truncationMarker.length
        else 0) := by
  exact (C7_amended_chunk_cap
    (RTRequest.mk "r" "claude" "c1" "POST" "/v1" "t" "STREAMING" 0 none [] [] false none)
    [("ab", 3), ("c", 4)] 2 rfl rfl (by decide)).1

/-! ## Claim C8: trailing SSE usage frame determines the extraction -/

/-- A `data:` payload that decodes to a non-empty object with a non-empty
usage block overrides the SSE accumulator. -/
theorem sseStep_hit (jsonLoads : String → Option Json) (service : String)
    (acc : Option (List (String × Json))) {payloadT : String}
    {payloadObj usage : List (String × Json)}
    (hparse : safe_json_loads jsonLoads payloadT = some payloadObj)
    (hpne : payloadObj ≠ [])
    (husage : extract_usage_from_payload service payloadObj = some usage)
    (hune : usage ≠ []) :
    sseStep jsonLoads service acc payloadT = some usage := by
  have hempty : payloadObj.isEmpty = false := by
    cases payloadObj
    · exact absurd rfl hpne
    · rfl
  have huempty : usage.isEmpty = false := by
    cases usage
    · exact absurd rfl hune
    · rfl
  unfold sseStep
  simp only [hparse, hempty, Bool.false_eq_true, if_false, husage, huempty]

/-- C8: for every byte string made of preceding SSE content followed by
one trailing `data:` frame whose JSON payload is a (truthy) object with a
(truthy) usage block, extracting usage from the whole byte string equals
extracting usage from the frame's JSON payload bytes alone.  The
hypotheses state the claim's shape in the source's own terms: the trimmed
text splits into the preceding chunks plus the frame, the frame carries
exactly one `data:` payload, the whole text is detected as SSE and the
payload alone is not. -/
theorem C8_trailing_sse_frame_extraction
    (jsonLoads : String → Option Json) (service whole payloadT frameChunk : String)
    (pchunks : List String) (payloadObj usage : List (String × Json))
    (hsplit : pySplit (pyTrim whole) "\n\n" = pchunks ++ [frameChunk])
    (hframe : chunkDataLines frameChunk = [payloadT])
    (hdet : detectSSE (pyTrim whole) = true)
    (hparse : safe_json_loads jsonLoads payloadT = some payloadObj)
    (hpne : payloadObj ≠ [])
    (husage : extract_usage_from_payload service payloadObj = some usage)
    (hune : usage ≠ [])
    (hptrim : pyTrim payloadT = payloadT)
    (hpnonempty : payloadT ≠ "")
    (hpdet : detectSSE payloadT = false) :
    extract_usage_from_response jsonLoads service (some whole) =
      extract_usage_from_response jsonLoads service (some payloadT) := by
  have hwne : whole ≠ "" := by
    intro he
    rw [he] at hdet
    exact absurd hdet (by decide)
  have htne : pyTrim whole ≠ "" := by
    intro he
    rw [he] at hdet
    exact absurd hdet (by decide)
  have hsse : extract_from_sse jsonLoads service (pyTrim whole) = some usage := by
    unfold extract_from_sse
    rw [hsplit]
    simp only [List.map_append, List.map_cons, List.map_nil, List.flatten_append,
      List.flatten_cons, List.flatten_nil, List.append_nil, hframe]
    rw [List.foldl_append]
    exact sseStep_hit jsonLoads service _ hparse hpne husage hune
  have hempty : payloadObj.isEmpty = false := by
    cases payloadObj
    · exact absurd rfl hpne
    · rfl
  have hlhs : extract_usage_from_response jsonLoads service (some whole) =
      normalize_usage service (some usage) := by
    unfold extract_usage_from_response
    simp only [if_neg hwne, if_neg htne, hdet, if_true, hsse]
  have hrhs : extract_usage_from_response jsonLoads service (some payloadT) =
      normalize_usage service (some usage) := by
    unfold extract_usage_from_response
    simp only [hptrim, if_neg hpnonempty, hpdet, Bool.false_eq_true, if_false, hparse,
      hempty, husage]
  rw [hlhs, hrhs]

/-- Witness for C8: a two-chunk SSE body `event: x` + `data: JP` where the
payload text `JP` decodes (under a concrete one-entry decoder) to an
object with a usage block. -/
theorem C8_trailing_sse_frame_extraction_witness :
    extract_usage_from_response
      (fun s => if s = "JP" then
        some (Json.obj [("usage", Json.obj [("input_tokens", Json.num 3)])])
      else none) "claude" (some "event: x\n\ndata: JP") =
    extract_usage_from_response
      (fun s => if s = "JP" then
        some (Json.obj [("usage", Json.obj [("input_tokens", Json.num 3)])])
      else none) "claude" (some "JP") := by
  exact C8_trailing_sse_frame_extraction
    (fun s => if s = "JP" then
      some (Json.obj [("usage", Json.obj [("input_tokens", Json.num 3)])])
    else none)
    "claude" "event: x\n\ndata: JP" "JP" "data: JP" ["event: x"]
    [("usage", Json.obj [("input_tokens", Json.num 3)])]
    [("input_tokens", Json.num 3)]
    rfl rfl rfl rfl (List.cons_ne_nil _ _) rfl (List.cons_ne_nil _ _) rfl
    (by decide) rfl

/-! ## Claim C5: log cap and usage spill -/

theorem dictSet_ne_nil {α : Type} (k : String) (v : α) (d : List (String × α)) :
    dictSet k v d ≠ [] := by
  cases d with
  | nil => simp [dictSet]
  | cons kv rest =>
    cases kv with
    | mk k1 v1 =>
      by_cases hk : k1 = k <;> simp [dictSet, hk]

theorem mem_of_dictGet_eq_some {α : Type} {k : String} {v : α} {d : List (String × α)}
    (h : dictGet k d = some v) : (k, v) ∈ d := by
  induction d with
  | nil => cases h
  | cons kv rest ih =>
    cases kv with
    | mk k1 v1 =>
      by_cases hk : k1 = k
      · subst hk
        simp only [dictGet, reduceIte, Option.some.injEq] at h
        subst h
        exact List.mem_cons_self _ _
      · simp only [dictGet, if_neg hk] at h
        exact List.mem_cons_of_mem _ (ih h)

/-- Key-distinctness is preserved by any fold of dict assignments. -/
theorem nodup_foldl_dictSet {γ α : Type} (key : γ → String)
    (val : List (String × α) → γ → α) :
    ∀ (l : List γ) (acc : List (String × α)), (acc.map Prod.fst).Nodup →
      ((l.foldl (fun d x => dictSet (key x) (val d x) d) acc).map Prod.fst).Nodup := by
  intro l
  induction l with
  | nil => intro acc h; exact h
  | cons x rest ih =>
    intro acc h
    exact ih _ (nodup_map_fst_dictSet h)

/-- The two-level lookup through one aggregation step: the entry's
contribution lands on its `(service, channel)` cell and nothing else. -/
theorem tableLookup_aggregateStep (agg : UsageTable) (e : LogEntry)
    (service channel : String) :
    tableLookup (aggregateStep agg e) service channel =
      addMetrics (tableLookup agg service channel)
        (if ¬(entryMetrics e).isEmpty ∧ entryServiceName e = service ∧
            entryChannelName e = channel then
          jsonMetrics (entryMetrics e)
        else emptyMetrics) := by
  simp only [aggregateStep]
  by_cases hm : (entryMetrics e).isEmpty
  · rw [if_pos hm]
    rw [if_neg (by simp [hm])]
    exact (addMetrics_empty_right _).symm
  · rw [if_neg hm]
    by_cases hs : entryServiceName e = service
    · by_cases hc : entryChannelName e = channel
      · rw [if_pos ⟨hm, hs, hc⟩]
        subst hs
        subst hc
        simp only [tableLookup, dictGetD]
        rw [dictGet_dictSet_self]
        simp only [Option.getD_some]
        rw [dictGet_dictSet_self]
        simp only [Option.getD_some]
        rw [mergeJsonMetrics_eq_add]
      · rw [if_neg (by intro hcon; exact hc hcon.2.2)]
        subst hs
        simp only [tableLookup, dictGetD]
        rw [dictGet_dictSet_self]
        simp only [Option.getD_some]
        rw [dictGet_dictSet_ne (Ne.symm hc)]
        exact (addMetrics_empty_right _).symm
    · rw [if_neg (by intro hcon; exact hs hcon.2.1)]
      simp only [tableLookup, dictGetD]
      rw [dictGet_dictSet_ne (Ne.symm hs)]
      exact (addMetrics_empty_right _).symm

/-- The aggregation fold computes, on each `(service, channel)` cell, the
sum of the discarded entries attributed to it. -/
theorem tableLookup_aggregate (discarded : List LogEntry) :
    ∀ (agg : UsageTable) (service channel : String),
      tableLookup (discarded.foldl aggregateStep agg) service channel =
        addMetrics (tableLookup agg service channel)
          (discardedSum discarded service channel) := by
  induction discarded with
  | nil =>
    intro agg service channel
    exact (addMetrics_empty_right _).symm
  | cons e rest ih =>
    intro agg service channel
    rw [List.foldl_cons, ih (aggregateStep agg e) service channel,
      tableLookup_aggregateStep, discardedSum, addMetrics_assoc]

/-- A `(service, channel)` cell of the aggregated discarded usage. -/
theorem tableLookup_aggregateDiscarded (discarded : List LogEntry)
    (service channel : String) :
    tableLookup (aggregateDiscarded discarded) service channel =
      discardedSum discarded service channel := by
  unfold aggregateDiscarded
  rw [tableLookup_aggregate]
  have hnil : tableLookup [] service channel = emptyMetrics := rfl
  rw [hnil, addMetrics_empty_left]

/-- The bucket looked up by `dictGetD _ _ []` in a well-keyed table has
distinct channel keys. -/
theorem bucket_nodup_of_tableWF {t : UsageTable} (hwf : tableWF t) (s : String) :
    ((dictGetD s t []).map Prod.fst).Nodup := by
  unfold dictGetD
  cases hg : dictGet s t with
  | none => simp
  | some b =>
    simp only [Option.getD_some]
    exact hwf.2 (s, b) (mem_of_dictGet_eq_some hg)

/-- Aggregation preserves well-keyedness. -/
theorem tableWF_aggregate (discarded : List LogEntry) :
    ∀ agg : UsageTable, tableWF agg → tableWF (discarded.foldl aggregateStep agg) := by
  induction discarded with
  | nil => intro agg h; exact h
  | cons e rest ih =>
    intro agg hwf
    rw [List.foldl_cons]
    refine ih _ ?_
    simp only [aggregateStep]
    by_cases hm : (entryMetrics e).isEmpty
    · rw [if_pos hm]
      exact hwf
    · rw [if_neg hm]
      constructor
      · exact nodup_map_fst_dictSet hwf.1
      · intro sv hmem
        rcases mem_dictSet hmem with hin | heq
        · exact hwf.2 sv hin
        · rw [heq]
          exact nodup_map_fst_dictSet (bucket_nodup_of_tableWF hwf _)

theorem tableWF_aggregateDiscarded (discarded : List LogEntry) :
    tableWF (aggregateDiscarded discarded) :=
  tableWF_aggregate discarded [] ⟨List.nodup_nil, by intro sv hm; cases hm⟩

/-- Merging the aggregate into a well-keyed history keeps it well-keyed. -/
theorem tableWF_mergeHistoryAgg (agg : UsageTable) :
    ∀ h : UsageTable, tableWF h → tableWF (mergeHistoryAgg h agg) := by
  induction agg with
  | nil => intro h hwf; exact hwf
  | cons sv rest ih =>
    intro h hwf
    have hcons : mergeHistoryAgg h (sv :: rest) =
        mergeHistoryAgg
          (dictSet sv.1
            (sv.2.foldl
              (fun sb cm => dictSet cm.1 (addMetrics (dictGetD cm.1 sb emptyMetrics) cm.2) sb)
              (dictGetD sv.1 h [])) h) rest := rfl
    rw [hcons]
    refine ih _ ?_
    constructor
    · exact nodup_map_fst_dictSet hwf.1
    · intro sv' hmem
      rcases mem_dictSet hmem with hin | heq
      · exact hwf.2 sv' hin
      · rw [heq]
        exact nodup_foldl_dictSet (fun cm => cm.1)
          (fun sb cm => addMetrics (dictGetD cm.1 sb emptyMetrics) cm.2) sv.2 _
          (bucket_nodup_of_tableWF hwf _)

/-- The normalised history is always well-keyed. -/
theorem tableWF_normalizeHistory (file : List (String × Json)) :
    tableWF (normalizeHistory file) := by
  suffices h : ∀ acc : UsageTable, tableWF acc →
      tableWF (file.foldl
        (fun h sv =>
          match sv.2 with
          | Json.obj channels => dictSet sv.1 (normalizeBucket channels) h
          | _ => h) acc) from
    h [] ⟨List.nodup_nil, by intro sv hm; cases hm⟩
  induction file with
  | nil => intro acc h; exact h
  | cons sv rest ih =>
    intro acc hwf
    rw [List.foldl_cons]
    refine ih _ ?_
    cases hv : sv.2 with
    | obj channels =>
      constructor
      · exact nodup_map_fst_dictSet hwf.1
      · intro sv' hmem
        rcases mem_dictSet hmem with hin | heq
        · exact hwf.2 sv' hin
        · rw [heq]
          exact nodup_foldl_dictSet (fun cm => cm.1)
            (fun bucket cm =>
              match cm.2 with
              | Json.obj mm => mergeJsonMetrics emptyMetrics mm
              | _ => emptyMetrics) channels [] List.nodup_nil
    | null => exact hwf
    | bool b => exact hwf
    | num n => exact hwf
    | str s => exact hwf
    | arr xs => exact hwf

/-- Channel-level half of the merge-lookup lemma: folding the aggregate's
channels of one service into a bucket adds, cellwise, the aggregate's
channel totals. -/
theorem bucketLookup_merge_channels (channels : List (String × Metrics))
    (hnodup : (channels.map Prod.fst).Nodup) :
    ∀ (sb : List (String × Metrics)) (c : String),
      dictGetD c
        (channels.foldl
          (fun sb cm => dictSet cm.1 (addMetrics (dictGetD cm.1 sb emptyMetrics) cm.2) sb)
          sb) emptyMetrics =
      addMetrics (dictGetD c sb emptyMetrics) (dictGetD c channels emptyMetrics) := by
  induction channels with
  | nil =>
    intro sb c
    have hc : dictGetD c ([] : List (String × Metrics)) emptyMetrics = emptyMetrics := rfl
    rw [List.foldl_nil, hc, addMetrics_empty_right]
  | cons cm rest ih =>
    intro sb c
    simp only [List.map_cons, List.nodup_cons] at hnodup
    rw [List.foldl_cons, ih hnodup.2]
    by_cases hc : c = cm.1
    · have hrest : dictGetD c rest emptyMetrics = emptyMetrics := by
        unfold dictGetD
        rw [dictGet_eq_none_of_not_mem (by rw [hc]; exact hnodup.1)]
        rfl
      have hsb1 : dictGetD c (dictSet cm.1 (addMetrics (dictGetD cm.1 sb emptyMetrics) cm.2) sb)
          emptyMetrics = addMetrics (dictGetD cm.1 sb emptyMetrics) cm.2 := by
        unfold dictGetD
        rw [hc, dictGet_dictSet_self]
        rfl
      have hhead : dictGetD c (cm :: rest) emptyMetrics = cm.2 := by
        unfold dictGetD
        cases cm with
        | mk c1 m1 =>
          simp only [dictGet]
          rw [if_pos hc.symm]
          rfl
      rw [hrest, hsb1, hhead, addMetrics_empty_right, hc]
    · have hsb1 : dictGetD c (dictSet cm.1 (addMetrics (dictGetD cm.1 sb emptyMetrics) cm.2) sb)
          emptyMetrics = dictGetD c sb emptyMetrics := by
        unfold dictGetD
        rw [dictGet_dictSet_ne hc]
      have hhead : dictGetD c (cm :: rest) emptyMetrics = dictGetD c rest emptyMetrics := by
        unfold dictGetD
        cases cm with
        | mk c1 m1 =>
          simp only [dictGet]
          rw [if_neg (Ne.symm hc)]
      rw [hsb1, hhead]

/-- Service-level merge-lookup lemma: merging a well-keyed aggregate into
a history adds the aggregate cellwise. -/
theorem tableLookup_mergeHistoryAgg (agg : UsageTable) (hwf : tableWF agg) :
    ∀ (h : UsageTable) (service channel : String),
      tableLookup (mergeHistoryAgg h agg) service channel =
        addMetrics (tableLookup h service channel) (tableLookup agg service channel) := by
  induction agg with
  | nil =>
    intro h service channel
    have : tableLookup ([] : UsageTable) service channel = emptyMetrics := rfl
    rw [this, addMetrics_empty_right]
    rfl
  | cons sv rest ih =>
    intro h service channel
    obtain ⟨hnodup, hbuckets⟩ := hwf
    simp only [List.map_cons, List.nodup_cons] at hnodup
    have hwfrest : tableWF rest :=
      ⟨hnodup.2, fun sv' hm => hbuckets sv' (List.mem_cons_of_mem _ hm)⟩
    have hcons : mergeHistoryAgg h (sv :: rest) =
        mergeHistoryAgg
          (dictSet sv.1
            (sv.2.foldl
              (fun sb cm => dictSet cm.1 (addMetrics (dictGetD cm.1 sb emptyMetrics) cm.2) sb)
              (dictGetD sv.1 h [])) h) rest := rfl
    rw [hcons, ih hwfrest]
    by_cases hs : service = sv.1
    · have hnone : dictGet service rest = none :=
        dictGet_eq_none_of_not_mem (by rw [hs]; exact hnodup.1)
      have hrest : tableLookup rest service channel = emptyMetrics := by
        unfold tableLookup dictGetD
        rw [hnone]
        rfl
      have houter : dictGetD service
          (dictSet sv.1
            (sv.2.foldl
              (fun sb cm => dictSet cm.1 (addMetrics (dictGetD cm.1 sb emptyMetrics) cm.2) sb)
              (dictGetD sv.1 h [])) h) [] =
          sv.2.foldl
            (fun sb cm => dictSet cm.1 (addMetrics (dictGetD cm.1 sb emptyMetrics) cm.2) sb)
            (dictGetD sv.1 h []) := by
        unfold dictGetD
        rw [hs, dictGet_dictSet_self]
        rfl
      have hh1 : tableLookup
          (dictSet sv.1
            (sv.2.foldl
              (fun sb cm => dictSet cm.1 (addMetrics (dictGetD cm.1 sb emptyMetrics) cm.2) sb)
              (dictGetD sv.1 h [])) h) service channel =
          addMetrics (dictGetD channel (dictGetD sv.1 h []) emptyMetrics)
            (dictGetD channel sv.2 emptyMetrics) := by
        unfold tableLookup
        rw [houter]
        exact bucketLookup_merge_channels sv.2 (hbuckets sv (List.mem_cons_self _ _)) _ _
      have hhead : tableLookup (sv :: rest) service channel =
          dictGetD channel sv.2 emptyMetrics := by
        unfold tableLookup dictGetD
        cases sv with
        | mk s1 b1 =>
          simp only [dictGet]
          rw [if_pos hs.symm]
          rfl
      rw [hrest, hh1, hhead, addMetrics_empty_right]
      unfold tableLookup dictGetD
      rw [hs]
    · have houter : dictGetD service
          (dictSet sv.1
            (sv.2.foldl
              (fun sb cm => dictSet cm.1 (addMetrics (dictGetD cm.1 sb emptyMetrics) cm.2) sb)
              (dictGetD sv.1 h [])) h) [] =
          dictGetD service h [] := by
        unfold dictGetD
        rw [dictGet_dictSet_ne hs]
      have hh1 : tableLookup
          (dictSet sv.1
            (sv.2.foldl
              (fun sb cm => dictSet cm.1 (addMetrics (dictGetD cm.1 sb emptyMetrics) cm.2) sb)
              (dictGetD sv.1 h [])) h) service channel =
          tableLookup h service channel := by
        unfold tableLookup
        rw [houter]
      have hhead : tableLookup (sv :: rest) service channel =
          tableLookup rest service channel := by
        unfold tableLookup dictGetD
        cases sv with
        | mk s1 b1 =>
          simp only [dictGet]
          rw [if_neg (Ne.symm hs)]
      rw [hh1, hhead]

/-- Round-trip of one metrics record through its JSON serialisation. -/
theorem mergeJson_metricsToJson (m : Metrics) :
    mergeJsonMetrics emptyMetrics (metricsToJson m) = m :=
  jsonMetrics_metricsToJson m

/-- Normalising a serialised bucket gives the bucket back. -/
theorem normalizeBucket_serialized (bucket : List (String × Metrics))
    (hnodup : (bucket.map Prod.fst).Nodup) :
    normalizeBucket (bucket.map (fun cm => (cm.1, Json.obj (metricsToJson cm.2)))) =
      bucket := by
  unfold normalizeBucket
  rw [List.foldl_map]
  rw [List.foldl_ext _ (fun sb (cm : String × Metrics) => dictSet cm.1 cm.2 sb) []
    (by
      intro sb cm _
      simp only [mergeJson_metricsToJson])]
  rw [foldl_dictSet_eq_append bucket [] hnodup (by intro k _; rfl)]
  exact List.nil_append bucket

/-- Normalising the serialised history gives the history back (for the
well-keyed tables the program builds). -/
theorem normalizeHistory_serializeHistory {h : UsageTable} (hwf : tableWF h) :
    normalizeHistory (serializeHistory h) = h := by
  unfold serializeHistory normalizeHistory
  rw [List.foldl_map]
  rw [List.foldl_ext _
    (fun acc (sv : String × List (String × Metrics)) => dictSet sv.1 sv.2 acc) []
    (by
      intro acc sv hm
      simp only [normalizeBucket_serialized sv.2 (hwf.2 sv hm)])]
  rw [foldl_dictSet_eq_append h [] hwf.1 (by intro k _; rfl)]
  exact List.nil_append h

/-- The aggregation fold never empties a non-empty table. -/
theorem foldl_aggregateStep_ne_nil (discarded : List LogEntry) :
    ∀ agg : UsageTable, agg ≠ [] → discarded.foldl aggregateStep agg ≠ [] := by
  induction discarded with
  | nil => intro agg h; exact h
  | cons e rest ih =>
    intro agg hne
    rw [List.foldl_cons]
    refine ih _ ?_
    simp only [aggregateStep]
    by_cases hm : (entryMetrics e).isEmpty
    · rw [if_pos hm]
      exact hne
    · rw [if_neg hm]
      exact dictSet_ne_nil _ _ _

/-- When the aggregate is empty every discarded entry was skipped, so the
per-cell sums are all zero. -/
theorem discardedSum_of_aggregate_nil :
    ∀ discarded : List LogEntry, aggregateDiscarded discarded = [] →
      ∀ service channel : String, discardedSum discarded service channel = emptyMetrics := by
  intro discarded
  induction discarded with
  | nil => intro _ service channel; rfl
  | cons e rest ih =>
    intro hnil service channel
    by_cases hm : (entryMetrics e).isEmpty
    · have hstep : aggregateStep [] e = [] := by
        simp only [aggregateStep]
        rw [if_pos hm]
      have hrest : aggregateDiscarded rest = [] := by
        have : aggregateDiscarded (e :: rest) = rest.foldl aggregateStep (aggregateStep [] e) :=
          rfl
        rw [this, hstep] at hnil
        exact hnil
      have hsum : discardedSum (e :: rest) service channel =
          addMetrics emptyMetrics (discardedSum rest service channel) := by
        simp only [discardedSum]
        rw [if_neg (by simp [hm])]
      rw [hsum, ih hrest service channel, addMetrics_empty_right]
    · exfalso
      have hstep : aggregateStep [] e ≠ [] := by
        simp only [aggregateStep]
        rw [if_neg hm]
        exact dictSet_ne_nil _ _ _
      have : aggregateDiscarded (e :: rest) ≠ [] :=
        foldl_aggregateStep_ne_nil rest _ hstep
      exact this hnil

/-- The history file read through the program's own normalisation. -/
theorem historyLookup_eq_tableLookup (file : List (String × Json)) (service channel : String) :
    historyLookup file service channel =
      tableLookup (normalizeHistory file) service channel := rfl

/-- Saving discarded logs adds exactly the discarded entries' usage
onto each `(service, channel)` cell of the history file. -/
theorem historyLookup_save_discarded (discarded : List LogEntry)
    (file : List (String × Json)) (service channel : String) :
    historyLookup (save_discarded_logs_usage discarded file) service channel =
      addMetrics (historyLookup file service channel)
        (discardedSum discarded service channel) := by
  cases discarded with
  | nil =>
    have hsave : save_discarded_logs_usage [] file = file := rfl
    have hsum : discardedSum [] service channel = emptyMetrics := rfl
    rw [hsave, hsum, addMetrics_empty_right]
  | cons e rest =>
    by_cases hagg : (aggregateDiscarded (e :: rest)).isEmpty
    · have haggnil : aggregateDiscarded (e :: rest) = [] := by
        cases h : aggregateDiscarded (e :: rest)
        · rfl
        · rw [h] at hagg
          exact absurd hagg (by simp)
      have hsave : save_discarded_logs_usage (e :: rest) file = file := by
        simp only [save_discarded_logs_usage, List.isEmpty_cons, Bool.false_eq_true, if_false]
        rw [if_pos hagg]
      rw [hsave, discardedSum_of_aggregate_nil (e :: rest) haggnil service channel,
        addMetrics_empty_right]
    · have hsave : save_discarded_logs_usage (e :: rest) file =
          serializeHistory
            (mergeHistoryAgg (normalizeHistory file) (aggregateDiscarded (e :: rest))) := by
        simp only [save_discarded_logs_usage, List.isEmpty_cons, Bool.false_eq_true, if_false]
        rw [if_neg hagg]
      rw [hsave, historyLookup_eq_tableLookup,
        normalizeHistory_serializeHistory
          (tableWF_mergeHistoryAgg _ _ (tableWF_normalizeHistory file)),
        tableLookup_mergeHistoryAgg _ (tableWF_aggregateDiscarded _) _ service channel,
        tableLookup_aggregateDiscarded]
      rfl

/-- C5: after every traffic-log insert, the kept log holds at most
`logLimit` entries (default 50 when the system config is absent or
unreadable; the UI only writes 10/30/50/100, so the limit is at least 1),
and the usage of every entry evicted by that insert is added into the
history-usage file, per service and channel. -/
theorem C5_log_cap_and_usage_spill (maxLogs : Nat) (existing : List LogEntry)
    (newEntry : LogEntry) (historyFile : List (String × Json)) (hmax : 1 ≤ maxLogs) :
    (maintain_log_limit maxLogs existing newEntry historyFile).1.length ≤ maxLogs ∧
    (∀ service channel : String,
      historyLookup (maintain_log_limit maxLogs existing newEntry historyFile).2
          service channel =
        addMetrics (historyLookup historyFile service channel)
          (discardedSum (discardedOf maxLogs (existing ++ [newEntry])) service channel)) ∧
    readLogLimit none = 50 := by
  have hne : maxLogs ≠ 0 := by omega
  by_cases hlen : (existing ++ [newEntry]).length > maxLogs
  · have hm : maintain_log_limit maxLogs existing newEntry historyFile =
        ((existing ++ [newEntry]).drop ((existing ++ [newEntry]).length - maxLogs),
         save_discarded_logs_usage (discardedOf maxLogs (existing ++ [newEntry]))
           historyFile) := by
      simp only [maintain_log_limit]
      rw [if_pos hlen, if_neg hne]
    rw [hm]
    refine ⟨?_, ?_, rfl⟩
    · simp only [List.length_drop]
      omega
    · intro service channel
      exact historyLookup_save_discarded _ historyFile service channel
  · have hm : maintain_log_limit maxLogs existing newEntry historyFile =
        (existing ++ [newEntry], historyFile) := by
      simp only [maintain_log_limit]
      rw [if_neg hlen]
    have hdisc : discardedOf maxLogs (existing ++ [newEntry]) = [] := by
      simp only [discardedOf]
      rw [if_neg hlen]
    rw [hm, hdisc]
    refine ⟨?_, ?_, rfl⟩
    · show (existing ++ [newEntry]).length ≤ maxLogs
      omega
    intro service channel
    have hsum : discardedSum [] service channel = emptyMetrics := rfl
    rw [hsum, addMetrics_empty_right]

/-- Witness for C5: limit 1, one existing entry carrying usage, one new
entry — the kept log has one entry and the evicted entry's usage lands in
the history cell. -/
theorem C5_log_cap_and_usage_spill_witness :
    (maintain_log_limit 1
      [LogEntry.mk (some (LogEntryUsage.mk (some "claude")
        [("input", Json.num 2), ("total", Json.num 2)])) none (some "c1")]
      (LogEntry.mk none none none) []).1.length ≤ 1 ∧
    historyLookup
      (maintain_log_limit 1
        [LogEntry.mk (some (LogEntryUsage.mk (some "claude")
          [("input", Json.num 2), ("total", Json.num 2)])) none (some "c1")]
        (LogEntry.mk none none none) []).2 "claude" "c1" =
      addMetrics (historyLookup [] "claude" "c1")
        (discardedSum
          (discardedOf 1
            ([LogEntry.mk (some (LogEntryUsage.mk (some "claude")
              [("input", Json.num 2), ("total", Json.num 2)])) none (some "c1")] ++
             [LogEntry.mk none none none])) "claude" "c1") := by
  have h := C5_log_cap_and_usage_spill 1
    [LogEntry.mk (some (LogEntryUsage.mk (some "claude")
      [("input", Json.num 2), ("total", Json.num 2)])) none (some "c1")]
    (LogEntry.mk none none none) [] (by decide)
  exact ⟨h.1, h.2.1 "claude" "c1"⟩

end CliProxy
